import Mathlib

/-!
# A shallow embedding of the bingo coordination server (`src/server.ts`)

The server keeps two process-wide tables: a room table and a player table
(JavaScript `Map`s, which iterate in insertion order).  We embed them as
insertion-ordered association lists.  Mutation of a `Map` entry is embedded as
replace-in-place (`setPlayer` / `setRoom`), which preserves insertion order
exactly as `Map.set` does.

Sources of nondeterminism in the server — `Date.now()`, `Math.random()`, the
timer queue, and the identity of websocket connections — are passed in as
explicit parameters: freshly generated ids and transaction ids are arguments,
the rejection-sampling draw receives a stream `randoms : Nat → Nat` of raw
random values (`Math.floor(Math.random() * range)` is embedded as
`randoms i % range`), and each timer fire of `callNextNumber` is an explicit
operation.  A `Number.parseInt`-ed numeric field is embedded as `Int`.
`WebSocket#readyState === OPEN` is embedded as a `wsOpen : Bool` flag on the
player.  Outbound `ws.send` calls are collected as an event list.
-/

namespace Bingo

/-- One entry of the server's `boardTypes` table. -/
structure BoardType where
  id : String
  name : String
  range : Nat
deriving DecidableEq, Repr

/-- The six configured game variants (`boardTypes` in `server.ts`). -/
def boardTypes : List BoardType := [
  ⟨"75ball", "75-ቢንጎ", 75⟩,
  ⟨"90ball", "90-ቢንጎ", 90⟩,
  ⟨"30ball", "30-ቢንጎ", 30⟩,
  ⟨"50ball", "50-ቢንጎ", 50⟩,
  ⟨"pattern", "ንድፍ ቢንጎ", 75⟩,
  ⟨"coverall", "ሙሉ ቤት", 90⟩]

/-- The `Player` record of `server.ts`.  `markedNumbers` (a JS `Set`) is an
insertion-ordered duplicate-free list; `wsOpen` embeds
`ws.readyState === WebSocket.OPEN`. -/
structure Player where
  id : String
  name : String
  phone : String
  stake : Int
  boardId : Int
  gameType : String
  payment : Int
  balance : Int
  won : Int
  wsOpen : Bool
  roomId : String
  markedNumbers : List Nat
deriving DecidableEq, Repr

/-- The `GameRoom` record of `server.ts`.  `players` is the room membership
(the key set of the room's player `Map`, in insertion order);
`callInterval` records whether a `setInterval` handle is stored. -/
structure GameRoom where
  id : String
  gameType : String
  players : List String
  calledNumbers : List Nat
  currentNumber : Option Nat
  isCalling : Bool
  gameActive : Bool
  callInterval : Bool
deriving DecidableEq, Repr

/-- The process-wide mutable state: the `rooms` and `players` tables. -/
structure ServerState where
  rooms : List GameRoom
  players : List (String × Player)
deriving DecidableEq, Repr

/-- The empty state the process starts in. -/
def initialState : ServerState := ⟨[], []⟩

/-- Outbound message payloads (the JSON objects written to sockets). -/
inductive Msg where
  | playerConnected (playerId roomId : String)
  | playerJoined (players : List (String × String × Int))
  | numberMarked (playerId : String) (number : Nat)
  | winAnnounced (winnerName pattern : String) (winAmount : Int)
  | balanceUpdated (balance won : Int)
  | numberCalled (number : Nat) (displayText : String) (calledNumbers : List Nat)
  | gameState (calledNumbers : List Nat) (currentNumber : Option String)
      (isCalling gameActive : Bool) (playersCount : Nat)
  | withdrawalProcessed (amount newBalance : Int) (transactionId : String)
  | errorMsg (message : String)
deriving DecidableEq, Repr

/-- One outbound send.  `roomSend roomId playerId msg` is a send performed by
`broadcastToRoom(roomId, …)` to member `playerId`; `direct` is a plain
`player.ws.send(…)`; `connSend` is a reply on the originating connection
before any player exists (the registration error path). -/
inductive Evt where
  | roomSend (roomId playerId : String) (msg : Msg)
  | direct (playerId : String) (msg : Msg)
  | connSend (msg : Msg)
deriving DecidableEq, Repr

/-! ## Table primitives (JS `Map` get/set on insertion-ordered assoc lists) -/

/-- `players.get(pid)`. -/
def lookupKey (pid : String) : List (String × Player) → Option Player
  | [] => none
  | (k, v) :: rest => if k = pid then some v else lookupKey pid rest

/-- `players.set(pid, p)`: replace in place, else append. -/
def setPlayer (pid : String) (p : Player) : List (String × Player) → List (String × Player)
  | [] => [(pid, p)]
  | (k, v) :: rest => if k = pid then (pid, p) :: rest else (k, v) :: setPlayer pid p rest

/-- `rooms.get(rid)` (first room with the given id, in insertion order). -/
def findRoomIn (rid : String) : List GameRoom → Option GameRoom
  | [] => none
  | r :: rest => if r.id = rid then some r else findRoomIn rid rest

/-- `rooms.set(room.id, room)`: replace in place, else append. -/
def setRoom (room : GameRoom) : List GameRoom → List GameRoom
  | [] => [room]
  | r :: rest => if r.id = room.id then room :: rest else r :: setRoom room rest

/-- `players.get(pid)` on the state. -/
def lookupPlayer (s : ServerState) (pid : String) : Option Player :=
  lookupKey pid s.players

/-- `rooms.get(rid)` on the state. -/
def findRoom (s : ServerState) (rid : String) : Option GameRoom :=
  findRoomIn rid s.rooms

/-- JS `Set.add` / `Map.set`-style membership add for ids and marked numbers. -/
def addMember (pid : String) (l : List String) : List String :=
  if pid ∈ l then l else l ++ [pid]

/-- `markedNumbers.add(number)` (JS `Set.add`). -/
def addMarked (n : Nat) (l : List Nat) : List Nat :=
  if n ∈ l then l else l ++ [n]

/-! ## Helper functions of `server.ts` -/

/-- `generatePlayerId`: `` `player_${Date.now()}_${randomSuffix}` ``.  The
decimal rendering of `Date.now()` and the base-36 random suffix are supplied
as strings by the environment. -/
def generatePlayerId (now suffix : String) : String :=
  "player_" ++ now ++ "_" ++ suffix

/-- `generateRoomId`: `` `room_${Date.now()}_${randomSuffix}` ``. -/
def generateRoomId (now suffix : String) : String :=
  "room_" ++ now ++ "_" ++ suffix

/-- `calculatePotentialWin(stake)`: `Math.floor(0.8 * validMembers * stake * 0.97)`
with `validMembers = 90`, in exact arithmetic. -/
def calculatePotentialWin (stake : Int) : Int :=
  let validMembers : ℚ := 90
  ⌊(0.8 : ℚ) * validMembers * (stake : ℚ) * 0.97⌋

/-- The characters of the string `'BINGO'`. -/
def bingoLetters : List Char := ['B', 'I', 'N', 'G', 'O']

/-- `getDisplayNumber(number, gameType)`: letter-prefixed column display for
`75ball`/`pattern` (column size 15) and `50ball` (column size 10), plain
numeral otherwise. -/
def getDisplayNumber (number : Nat) (gameType : String) : String :=
  if gameType = "75ball" ∨ gameType = "pattern" then
    let columnSize := 15
    let columnIndex := (number - 1) / columnSize
    let letter := bingoLetters.getD (min columnIndex 4) 'B'
    String.mk [letter] ++ "-" ++ toString number
  else if gameType = "50ball" then
    let columnSize := 10
    let columnIndex := (number - 1) / columnSize
    let letter := bingoLetters.getD (min columnIndex 4) 'B'
    String.mk [letter] ++ "-" ++ toString number
  else
    toString number

/-! ## Broadcast fan-out -/

/-- `broadcastToRoom(roomId, message, excludePlayerId?)`: silently skips a
missing room; sends to every member whose socket is open, except the
excluded id. -/
def broadcastToRoom (s : ServerState) (roomId : String) (msg : Msg)
    (excludePlayerId : Option String) : List Evt :=
  match findRoom s roomId with
  | none => []
  | some room =>
    room.players.filterMap fun pid =>
      match lookupPlayer s pid with
      | none => none
      | some p =>
        if some p.id ≠ excludePlayerId ∧ p.wsOpen then
          some (Evt.roomSend roomId p.id msg)
        else none

/-- `sendError(ws, message)`: only sends when the socket is open. -/
def sendErrorTo (p : Player) (message : String) : List Evt :=
  if p.wsOpen then [Evt.direct p.id (Msg.errorMsg message)] else []

/-! ## Matchmaking and registration -/

/-- The inbound `register_player` payload (numeric fields already
`parseInt`-ed; a missing/empty field is `""` resp. `0`). -/
structure RegisterData where
  name : String
  phone : String
  stake : Int
  boardId : Int
  gameType : String
  payment : Int
deriving DecidableEq, Repr

/-- `getOrCreateRoom(gameType)`: first-fit scan of the room table in insertion
order for a room of the same variant with fewer than 90 members; otherwise
create a room with empty draw state under the freshly generated id. -/
def getOrCreateRoom (gameType : String) (freshRoomId : String) (s : ServerState) :
    String × ServerState :=
  match s.rooms.find? (fun room => room.gameType == gameType && decide (room.players.length < 90)) with
  | some room => (room.id, s)
  | none =>
    let room : GameRoom :=
      { id := freshRoomId, gameType := gameType, players := [], calledNumbers := [],
        currentNumber := none, isCalling := false, gameActive := true, callInterval := false }
    (freshRoomId, { s with rooms := setRoom room s.rooms })

/-- The `player_joined` payload: `(id, name, stake)` of every room member. -/
def memberSummaries (s : ServerState) (rid : String) : List (String × String × Int) :=
  match findRoom s rid with
  | none => []
  | some room =>
    room.players.filterMap fun pid =>
      (lookupPlayer s pid).map fun p => (p.id, p.name, p.stake)

/-- `handleRegisterPlayer`: validates that `name`, `phone`, `stake` and
`gameType` are truthy (`""`/`0` are the falsy values of the embedded types),
then creates the player, assigns a room, confirms privately and broadcasts
`player_joined` to the other members. -/
def handleRegisterPlayer (d : RegisterData) (wsOpen : Bool)
    (freshPlayerId freshRoomId : String) (s : ServerState) : ServerState × List Evt :=
  if d.name = "" ∨ d.phone = "" ∨ d.stake = 0 ∨ d.gameType = "" then
    (s, if wsOpen then [Evt.connSend (Msg.errorMsg "Missing required registration data")] else [])
  else
    let playerId := freshPlayerId
    let g := getOrCreateRoom d.gameType freshRoomId s
    let roomId := g.1
    let s₁ := g.2
    let player : Player :=
      { id := playerId, name := d.name, phone := d.phone, stake := d.stake,
        boardId := if d.boardId = 0 then 1 else d.boardId,
        gameType := d.gameType, payment := d.payment, balance := d.payment,
        won := 0, wsOpen := wsOpen, roomId := roomId, markedNumbers := [] }
    let s₂ : ServerState := { s₁ with players := setPlayer playerId player s₁.players }
    let s₃ : ServerState :=
      match findRoom s₂ roomId with
      | some room =>
        { s₂ with rooms := setRoom { room with players := addMember playerId room.players } s₂.rooms }
      | none => s₂
    (s₃, Evt.direct playerId (Msg.playerConnected playerId roomId) ::
      broadcastToRoom s₃ roomId (Msg.playerJoined (memberSummaries s₃ roomId)) (some playerId))

/-! ## Marking and win handling -/

/-- `handleMarkNumber`: no-op unless the player exists and is a member of the
given room (`player.roomId !== roomId` guard). -/
def handleMarkNumber (pid rid : String) (n : Nat) (s : ServerState) : ServerState × List Evt :=
  match lookupPlayer s pid with
  | none => (s, [])
  | some p =>
    if p.roomId ≠ rid then (s, [])
    else
      let p' := { p with markedNumbers := addMarked n p.markedNumbers }
      let s' : ServerState := { s with players := setPlayer pid p' s.players }
      (s', broadcastToRoom s' rid (Msg.numberMarked pid n) (some pid))

/-- `handleAnnounceWin`: requires only that the player and the room exist
(membership is not checked); credits `calculatePotentialWin(stake)` to `won`
and `balance`, broadcasts `win_announced` to the given room, clears the
marked set, and sends `balance_updated` to the winner. -/
def handleAnnounceWin (pid rid pattern : String) (s : ServerState) : ServerState × List Evt :=
  match lookupPlayer s pid, findRoom s rid with
  | some p, some _room =>
    let winAmount := calculatePotentialWin p.stake
    let p₁ := { p with won := p.won + winAmount, balance := p.balance + winAmount }
    let s₁ : ServerState := { s with players := setPlayer pid p₁ s.players }
    let evts := broadcastToRoom s₁ rid (Msg.winAnnounced p₁.name pattern winAmount) none
    let p₂ := { p₁ with markedNumbers := [] }
    let s₂ : ServerState := { s₁ with players := setPlayer pid p₂ s₁.players }
    (s₂, evts ++ [Evt.direct p.id (Msg.balanceUpdated p₂.balance p₂.won)])
  | _, _ => (s, [])

/-- The body of `checkForWinners`' loop over `room.players.values()`:
a player who has marked every called number is paid
`calculatePotentialWin(stake)` with the same broadcast/reset sequence. -/
def winnersAux (rid : String) (called : List Nat) :
    List String → ServerState × List Evt → ServerState × List Evt
  | [], acc => acc
  | pid :: rest, (s, evts) =>
    match lookupPlayer s pid with
    | none => winnersAux rid called rest (s, evts)
    | some p =>
      if called.all (fun n => p.markedNumbers.contains n) then
        let winAmount := calculatePotentialWin p.stake
        let evts₁ := evts ++ broadcastToRoom s rid (Msg.winAnnounced p.name "full-house" winAmount) none
        let p' := { p with won := p.won + winAmount, balance := p.balance + winAmount,
                           markedNumbers := [] }
        let s' : ServerState := { s with players := setPlayer pid p' s.players }
        winnersAux rid called rest (s', evts₁ ++ [Evt.direct p.id (Msg.balanceUpdated p'.balance p'.won)])
      else
        winnersAux rid called rest (s, evts)

/-- `checkForWinners(roomId)`: silently skips a missing room, then runs the
full-house check for every member. -/
def checkForWinners (rid : String) (s : ServerState) : ServerState × List Evt :=
  match findRoom s rid with
  | none => (s, [])
  | some room => winnersAux rid room.calledNumbers room.players (s, [])

/-! ## The number-calling scheduler -/

/-- `handleStartCalling`: idempotent arm — no-op when the room is missing or
already calling; otherwise sets the flag and stores the interval handle. -/
def handleStartCalling (rid : String) (s : ServerState) : ServerState × List Evt :=
  match findRoom s rid with
  | none => (s, [])
  | some room =>
    if room.isCalling then (s, [])
    else
      ({ s with rooms := setRoom { room with isCalling := true, callInterval := true } s.rooms }, [])

/-- `handleStopCalling`: no-op when the room is missing or not calling;
otherwise clears the flag and the interval handle. -/
def handleStopCalling (rid : String) (s : ServerState) : ServerState × List Evt :=
  match findRoom s rid with
  | none => (s, [])
  | some room =>
    if room.isCalling then
      ({ s with rooms := setRoom { room with isCalling := false, callInterval := false } s.rooms }, [])
    else (s, [])

/-- The rejection-sampling `do … while` loop of `callNextNumber`:
`number = Math.floor(Math.random() * range) + 1` redrawn while
`calledNumbers.includes(number)`.  `randoms i % range` embeds the `i`-th raw
random draw; `fuel` bounds the iterations we observe — the JS loop running
forever is embedded as the loop returning `none` for every fuel. -/
def drawLoop (range : Nat) (called : List Nat) (randoms : Nat → Nat) :
    Nat → Nat → Option Nat
  | _, 0 => none
  | i, fuel + 1 =>
    let number := randoms i % range + 1
    if number ∈ called then drawLoop range called randoms (i + 1) fuel
    else some number

/-- JS `array.slice(-10)`. -/
def lastN (n : Nat) (l : List Nat) : List Nat := l.drop (l.length - n)

/-- `callNextNumber(roomId)` (one timer fire): checks `isCalling` at fire
time, draws a fresh number, appends it, broadcasts `number_called` with the
display text and the last 10 numbers, then runs the winner check. -/
def callNextNumber (randoms : Nat → Nat) (fuel : Nat) (rid : String) (s : ServerState) :
    ServerState × List Evt :=
  match findRoom s rid with
  | none => (s, [])
  | some room =>
    if room.isCalling then
      match boardTypes.find? (fun t => t.id == room.gameType) with
      | none => (s, [])
      | some boardType =>
        match drawLoop boardType.range room.calledNumbers randoms 0 fuel with
        | none => (s, [])
        | some number =>
          let called' := room.calledNumbers ++ [number]
          let room' := { room with calledNumbers := called', currentNumber := some number }
          let s₁ : ServerState := { s with rooms := setRoom room' s.rooms }
          let displayText := getDisplayNumber number room.gameType
          let evts := broadcastToRoom s₁ rid (Msg.numberCalled number displayText (lastN 10 called')) none
          let r := checkForWinners rid s₁
          (r.1, evts ++ r.2)
    else (s, [])

/-! ## Remaining handlers -/

/-- `handleGetGameState`: private snapshot reply, silently skipped if the
player or room is unknown. -/
def handleGetGameState (pid rid : String) (s : ServerState) : ServerState × List Evt :=
  match lookupPlayer s pid, findRoom s rid with
  | some p, some room =>
    (s, [Evt.direct p.id (Msg.gameState room.calledNumbers
      (room.currentNumber.map fun n => getDisplayNumber n room.gameType)
      room.isCalling room.gameActive room.players.length)])
  | _, _ => (s, [])

/-- `handleWithdraw`: silently skips an unknown player; rejects a missing
account or `amount < 25`, then `amount > balance`; otherwise debits and
confirms privately with the new balance and a transaction id. -/
def handleWithdraw (pid _rid account : String) (amount : Int) (txId : String)
    (s : ServerState) : ServerState × List Evt :=
  match lookupPlayer s pid with
  | none => (s, [])
  | some p =>
    if account = "" ∨ amount < 25 then
      (s, sendErrorTo p "Invalid withdrawal request")
    else if p.balance < amount then
      (s, sendErrorTo p "Insufficient balance")
    else
      let p' := { p with balance := p.balance - amount }
      let s' : ServerState := { s with players := setPlayer pid p' s.players }
      (s', [Evt.direct p.id (Msg.withdrawalProcessed amount p'.balance txId)])

/-! ## Operation sequences -/

/-- One dispatched inbound message or timer fire. -/
inductive Op where
  | register (d : RegisterData) (wsOpen : Bool) (freshPlayerId freshRoomId : String)
  | mark (pid rid : String) (n : Nat)
  | announceWin (pid rid pattern : String)
  | startCalling (rid : String)
  | stopCalling (rid : String)
  | getGameState (pid rid : String)
  | withdraw (pid rid account : String) (amount : Int) (txId : String)
  | draw (rid : String) (randoms : Nat → Nat) (fuel : Nat)

/-- Dispatch one operation (the `handleMessage` switch plus timer fires). -/
def applyOp (s : ServerState) : Op → ServerState × List Evt
  | .register d w fp fr => handleRegisterPlayer d w fp fr s
  | .mark pid rid n => handleMarkNumber pid rid n s
  | .announceWin pid rid pat => handleAnnounceWin pid rid pat s
  | .startCalling rid => handleStartCalling rid s
  | .stopCalling rid => handleStopCalling rid s
  | .getGameState pid rid => handleGetGameState pid rid s
  | .withdraw pid rid acc amt tx => handleWithdraw pid rid acc amt tx s
  | .draw rid randoms fuel => callNextNumber randoms fuel rid s

/-- Run a sequence of operations, collecting all outbound sends. -/
def runOps : List Op → ServerState → ServerState × List Evt
  | [], s => (s, [])
  | op :: rest, s =>
    let r₁ := applyOp s op
    let r₂ := runOps rest r₁.1
    (r₂.1, r₁.2 ++ r₂.2)

/-! ## Basic table lemmas -/

theorem lookupKey_setPlayer_self (pid : String) (p : Player) (l : List (String × Player)) :
    lookupKey pid (setPlayer pid p l) = some p := by
  induction l with
  | nil => simp [setPlayer, lookupKey]
  | cons kv rest ih =>
    obtain ⟨k, v⟩ := kv
    by_cases h : k = pid
    · simp [setPlayer, h, lookupKey]
    · simp [setPlayer, h, lookupKey, ih]

theorem lookupKey_setPlayer_ne (pid pid' : String) (p : Player) (l : List (String × Player))
    (h : pid' ≠ pid) : lookupKey pid' (setPlayer pid p l) = lookupKey pid' l := by
  induction l with
  | nil =>
    simp only [setPlayer, lookupKey]
    rw [if_neg (fun hh : pid = pid' => h hh.symm)]
  | cons kv rest ih =>
    obtain ⟨k, v⟩ := kv
    by_cases hk : k = pid
    · subst hk
      simp only [setPlayer, if_pos rfl, lookupKey]
      rw [if_neg (fun hh : k = pid' => h hh.symm), if_neg (fun hh : k = pid' => h hh.symm)]
    · simp only [setPlayer, if_neg hk, lookupKey]
      by_cases hk' : k = pid'
      · rw [if_pos hk', if_pos hk']
      · rw [if_neg hk', if_neg hk', ih]

theorem findRoomIn_setRoom (room : GameRoom) (l : List GameRoom) (rid : String) :
    findRoomIn rid (setRoom room l) =
      if room.id = rid then some room else findRoomIn rid l := by
  induction l with
  | nil => simp [setRoom, findRoomIn]
  | cons r rest ih =>
    by_cases h : r.id = room.id
    · rw [setRoom, if_pos h]
      by_cases h2 : room.id = rid
      · simp [findRoomIn, h2]
      · have hr2 : ¬ r.id = rid := fun hh => h2 (h ▸ hh)
        simp [findRoomIn, h2, hr2]
    · rw [setRoom, if_neg h]
      by_cases h2 : r.id = rid
      · have hnr : ¬ room.id = rid := fun hh => h (h2.trans hh.symm)
        simp [findRoomIn, h2, hnr]
      · simp [findRoomIn, h2, ih]

theorem mem_setRoom {x room : GameRoom} {l : List GameRoom}
    (h : x ∈ setRoom room l) : x = room ∨ x ∈ l := by
  induction l with
  | nil => simpa [setRoom] using h
  | cons r rest ih =>
    by_cases hr : r.id = room.id
    · simp [setRoom, hr] at h
      rcases h with h | h
      · exact .inl h
      · exact .inr (List.mem_cons_of_mem _ h)
    · simp [setRoom, hr] at h
      rcases h with h | h
      · exact .inr (by simp [h])
      · rcases ih h with h' | h'
        · exact .inl h'
        · exact .inr (List.mem_cons_of_mem _ h')

theorem findRoomIn_mem {rid : String} {l : List GameRoom} {room : GameRoom}
    (h : findRoomIn rid l = some room) : room ∈ l ∧ room.id = rid := by
  induction l with
  | nil => simp [findRoomIn] at h
  | cons r rest ih =>
    by_cases hr : r.id = rid
    · simp [findRoomIn, hr] at h
      subst h
      exact ⟨List.mem_cons_self _ _, hr⟩
    · simp [findRoomIn, hr] at h
      rcases ih h with ⟨hm, hid⟩
      exact ⟨List.mem_cons_of_mem _ hm, hid⟩

theorem ids_setRoom_sub {x : String} {room : GameRoom} {l : List GameRoom}
    (h : x ∈ (setRoom room l).map GameRoom.id) : x = room.id ∨ x ∈ l.map GameRoom.id := by
  simp only [List.mem_map] at h
  obtain ⟨r, hr, hx⟩ := h
  rcases mem_setRoom hr with h' | h'
  · exact .inl (by rw [← hx, h'])
  · exact .inr (List.mem_map.mpr ⟨r, h', hx⟩)

theorem setRoom_ids_nodup {room : GameRoom} {l : List GameRoom}
    (h : (l.map GameRoom.id).Nodup) : ((setRoom room l).map GameRoom.id).Nodup := by
  induction l with
  | nil => simp [setRoom]
  | cons r rest ih =>
    rw [List.map_cons, List.nodup_cons] at h
    by_cases hr : r.id = room.id
    · rw [setRoom, if_pos hr, List.map_cons, List.nodup_cons]
      exact ⟨by rw [← hr]; exact h.1, h.2⟩
    · rw [setRoom, if_neg hr, List.map_cons, List.nodup_cons]
      refine ⟨fun hc => ?_, ih h.2⟩
      rcases ids_setRoom_sub hc with h' | h'
      · exact hr h'
      · exact h.1 h'

theorem findRoomIn_of_mem_nodup {l : List GameRoom} {room : GameRoom}
    (hn : (l.map GameRoom.id).Nodup) (hm : room ∈ l) :
    findRoomIn room.id l = some room := by
  induction l with
  | nil => simp at hm
  | cons r rest ih =>
    simp only [List.map_cons, List.nodup_cons] at hn
    rcases List.mem_cons.mp hm with h | h
    · subst h
      simp [findRoomIn]
    · by_cases hr : r.id = room.id
      · exact absurd (hr ▸ List.mem_map.mpr ⟨room, h, rfl⟩) hn.1
      · simp [findRoomIn, hr, ih hn.2 h]

theorem mem_broadcastToRoom {e : Evt} {s : ServerState} {rid : String} {msg : Msg}
    {ex : Option String} (h : e ∈ broadcastToRoom s rid msg ex) :
    ∃ pid, e = Evt.roomSend rid pid msg := by
  unfold broadcastToRoom at h
  cases hf : findRoom s rid with
  | none => simp [hf] at h
  | some room =>
    rw [hf] at h
    simp only [List.mem_filterMap] at h
    obtain ⟨pid, _, hpe⟩ := h
    cases hp : lookupPlayer s pid with
    | none => simp [hp] at hpe
    | some p =>
      rw [hp] at hpe
      by_cases hc : some p.id ≠ ex ∧ p.wsOpen
      · simp only [if_pos hc, Option.some.injEq] at hpe
        exact ⟨_, hpe.symm⟩
      · simp [if_neg hc] at hpe

theorem boardTypes_range_pos {bt : BoardType} {f : BoardType → Bool}
    (h : boardTypes.find? f = some bt) : 0 < bt.range := by
  have hm := List.mem_of_find?_eq_some h
  fin_cases hm <;> norm_num

/-! ## Rejection-sampling draw lemmas -/

theorem drawLoop_eq_some {range : Nat} {called : List Nat} {randoms : Nat → Nat}
    {i fuel n : Nat} (h : drawLoop range called randoms i fuel = some n) :
    n ∉ called ∧ (0 < range → 1 ≤ n ∧ n ≤ range) := by
  induction fuel generalizing i with
  | zero => simp [drawLoop] at h
  | succ fuel ih =>
    simp only [drawLoop] at h
    by_cases hc : randoms i % range + 1 ∈ called
    · rw [if_pos hc] at h
      exact ih h
    · rw [if_neg hc] at h
      cases h
      exact ⟨hc, fun hr => ⟨Nat.le_add_left 1 _, Nat.succ_le_of_lt (Nat.mod_lt _ hr)⟩⟩

theorem drawLoop_id_isSome {range : Nat} {called : List Nat} :
    ∀ fuel i, (∃ k, i ≤ k ∧ k < i + fuel ∧ k % range + 1 ∉ called) →
    ∃ n, drawLoop range called (fun j => j) i fuel = some n := by
  intro fuel
  induction fuel with
  | zero =>
    intro i ⟨k, hik, hk, _⟩
    omega
  | succ fuel ih =>
    intro i ⟨k, hik, hk, hkc⟩
    simp only [drawLoop]
    by_cases hc : i % range + 1 ∈ called
    · rw [if_pos hc]
      refine ih (i + 1) ⟨k, ?_, by omega, hkc⟩
      rcases Nat.eq_or_lt_of_le hik with h | h
      · exact absurd (h ▸ hc) hkc
      · exact h
    · rw [if_neg hc]
      exact ⟨_, rfl⟩

theorem exists_fresh {range : Nat} {called : List Nat} (hnd : called.Nodup)
    (_hb : ∀ n ∈ called, 1 ≤ n ∧ n ≤ range) (hlen : called.length < range) :
    ∃ k, k < range ∧ k % range + 1 ∉ called := by
  by_contra hcon
  push_neg at hcon
  have hsub : Finset.Icc 1 range ⊆ called.toFinset := by
    intro m hm
    rw [Finset.mem_Icc] at hm
    have hk : m - 1 < range := by omega
    have := hcon (m - 1) hk
    rw [Nat.mod_eq_of_lt hk] at this
    have hm1 : m - 1 + 1 = m := by omega
    rw [hm1] at this
    exact List.mem_toFinset.mpr this
  have hcard : range ≤ called.toFinset.card := by
    have := Finset.card_le_card hsub
    simpa [Nat.card_Icc] using this
  rw [List.toFinset_card_of_nodup hnd] at hcard
  omega

theorem called_complete {range : Nat} {called : List Nat} (hnd : called.Nodup)
    (hb : ∀ n ∈ called, 1 ≤ n ∧ n ≤ range) (hlen : called.length = range) :
    ∀ m, 1 ≤ m → m ≤ range → m ∈ called := by
  intro m h1 h2
  have hsub : called.toFinset ⊆ Finset.Icc 1 range := by
    intro x hx
    rw [List.mem_toFinset] at hx
    rw [Finset.mem_Icc]
    exact hb x hx
  have hcardIcc : (Finset.Icc 1 range).card = range := by simp [Nat.card_Icc]
  have hcard : (Finset.Icc 1 range).card ≤ called.toFinset.card := by
    rw [hcardIcc, List.toFinset_card_of_nodup hnd, hlen]
  have heq := Finset.eq_of_subset_of_card_le hsub hcard
  have : m ∈ called.toFinset := heq.symm ▸ Finset.mem_Icc.mpr ⟨h1, h2⟩
  exact List.mem_toFinset.mp this

theorem drawLoop_exhausted {range : Nat} {called : List Nat} (hrange : 0 < range)
    (hall : ∀ m, 1 ≤ m → m ≤ range → m ∈ called) :
    ∀ randoms i fuel, drawLoop range called randoms i fuel = none := by
  intro randoms i fuel
  induction fuel generalizing i with
  | zero => rfl
  | succ fuel ih =>
    simp only [drawLoop]
    have hc : randoms i % range + 1 ∈ called :=
      hall _ (Nat.le_add_left 1 _) (Nat.succ_le_of_lt (Nat.mod_lt _ hrange))
    rw [if_pos hc]
    exact ih (i + 1)

/-! ## Winner-check lemmas -/

theorem winnersAux_rooms (rid : String) (called : List Nat) :
    ∀ (mems : List String) (s : ServerState) (evts : List Evt),
      (winnersAux rid called mems (s, evts)).1.rooms = s.rooms := by
  intro mems
  induction mems with
  | nil => intro s evts; rfl
  | cons m rest ih =>
    intro s evts
    cases hm : lookupPlayer s m with
    | none =>
      simp only [winnersAux, hm]
      exact ih s evts
    | some p =>
      simp only [winnersAux, hm]
      by_cases hwin : called.all (fun n => p.markedNumbers.contains n)
      · rw [if_pos hwin]
        exact ih _ _
      · rw [if_neg hwin]
        exact ih s evts

theorem winnersAux_lookup_not_mem (rid : String) (called : List Nat) :
    ∀ (mems : List String) (s : ServerState) (evts : List Evt) (pid : String), pid ∉ mems →
      lookupPlayer (winnersAux rid called mems (s, evts)).1 pid = lookupPlayer s pid := by
  intro mems
  induction mems with
  | nil => intro s evts pid _; rfl
  | cons m rest ih =>
    intro s evts pid hpid
    have hne : pid ≠ m := fun h => hpid (h ▸ List.mem_cons_self m rest)
    have hrest : pid ∉ rest := fun h => hpid (List.mem_cons_of_mem m h)
    cases hm : lookupPlayer s m with
    | none =>
      simp only [winnersAux, hm]
      exact ih s evts pid hrest
    | some p =>
      simp only [winnersAux, hm]
      by_cases hwin : called.all (fun n => p.markedNumbers.contains n)
      · rw [if_pos hwin]
        rw [ih _ _ pid hrest]
        exact lookupKey_setPlayer_ne m pid _ s.players hne
      · rw [if_neg hwin]
        exact ih s evts pid hrest

theorem winnersAux_player (rid : String) (called : List Nat) :
    ∀ (mems : List String) (s : ServerState) (evts : List Evt) (pid : String) (p : Player),
      mems.Nodup → lookupPlayer s pid = some p →
      ∃ p', lookupPlayer (winnersAux rid called mems (s, evts)).1 pid = some p' ∧
        p'.stake = p.stake ∧
        (p'.balance = p.balance ∨ p'.balance = p.balance + calculatePotentialWin p.stake) := by
  intro mems
  induction mems with
  | nil =>
    intro s evts pid p _ hp
    exact ⟨p, hp, rfl, .inl rfl⟩
  | cons m rest ih =>
    intro s evts pid p hnd hp
    rw [List.nodup_cons] at hnd
    cases hm : lookupPlayer s m with
    | none =>
      simp only [winnersAux, hm]
      exact ih s evts pid p hnd.2 hp
    | some q =>
      simp only [winnersAux, hm]
      by_cases hwin : called.all (fun n => q.markedNumbers.contains n)
      · rw [if_pos hwin]
        by_cases hpm : pid = m
        · subst hpm
          rw [hp] at hm
          have hq : q = p := (Option.some.inj hm).symm
          subst hq
          refine ⟨{ q with
                      won := q.won + calculatePotentialWin q.stake
                      balance := q.balance + calculatePotentialWin q.stake
                      markedNumbers := [] }, ?_, rfl, .inr rfl⟩
          rw [winnersAux_lookup_not_mem rid called rest _ _ pid hnd.1]
          exact lookupKey_setPlayer_self pid _ s.players
        · have hlk : ∀ pl : Player,
              lookupPlayer ({ s with players := setPlayer m pl s.players } : ServerState) pid = some p := by
            intro pl
            unfold lookupPlayer
            rw [lookupKey_setPlayer_ne m pid _ s.players hpm]
            exact hp
          exact ih _ _ pid p hnd.2 (hlk _)
      · rw [if_neg hwin]
        exact ih s evts pid p hnd.2 hp

/-! ## C7: the payout formula -/

/-- The payout formula exactly as the spec states it:
`floor(0.8 * 90 * stake * 0.97)`. -/
def specPotentialWin (stake : Int) : Int :=
  ⌊(0.8 : ℚ) * 90 * (stake : ℚ) * 0.97⌋

/-- C7: `potentialWin` is a deterministic pure function of the stake only,
equal to `floor(0.8 * 90 * stake * 0.97)` (the constant 90 is the fixed
field size, not the room's member count); `potentialWin(100) = 6984`; and
this amount is what both win-payout paths credit: `announce_win` credits
exactly `calculatePotentialWin(stake)` to `won` and `balance`, and the
automatic winner check changes a player's balance only by adding exactly
`calculatePotentialWin` of that player's stake. -/
theorem potentialWin_spec :
    (∀ stake : Int, calculatePotentialWin stake = specPotentialWin stake)
    ∧ calculatePotentialWin 100 = 6984
    ∧ (∀ s pid rid pattern p room, lookupPlayer s pid = some p → findRoom s rid = some room →
        lookupPlayer (handleAnnounceWin pid rid pattern s).1 pid =
          some { p with won := p.won + calculatePotentialWin p.stake,
                        balance := p.balance + calculatePotentialWin p.stake,
                        markedNumbers := [] })
    ∧ (∀ rid s pid p, (∀ room, findRoom s rid = some room → room.players.Nodup) →
        lookupPlayer s pid = some p →
        ∃ p', lookupPlayer (checkForWinners rid s).1 pid = some p' ∧ p'.stake = p.stake ∧
          (p'.balance = p.balance ∨ p'.balance = p.balance + calculatePotentialWin p.stake)) := by
  refine ⟨fun stake => rfl, by norm_num [calculatePotentialWin], ?_, ?_⟩
  · intro s pid rid pattern p room hp hroom
    unfold handleAnnounceWin
    rw [hp, hroom]
    simp only [lookupPlayer]
    rw [lookupKey_setPlayer_self]
  · intro rid s pid p hnd hp
    unfold checkForWinners
    cases hroom : findRoom s rid with
    | none => exact ⟨p, hp, rfl, .inl rfl⟩
    | some room =>
      exact winnersAux_player rid room.calledNumbers room.players s [] pid p (hnd room hroom) hp

/-- Witness for C7: a concrete announce-win payout. -/
def c7State : ServerState :=
  ⟨[⟨"r1", "75ball", ["p1"], [], none, false, true, false⟩],
   [("p1", ⟨"p1", "Alice", "0911", 100, 1, "75ball", 0, 50, 0, true, "r1", []⟩)]⟩

theorem potentialWin_spec_witness :
    lookupPlayer (handleAnnounceWin "p1" "r1" "full-house" c7State).1 "p1" =
      some ⟨"p1", "Alice", "0911", 100, 1, "75ball", 0, 50 + 6984, 0 + 6984, true, "r1", []⟩ := by
  have h := potentialWin_spec.2.2.1 c7State "p1" "r1" "full-house"
    ⟨"p1", "Alice", "0911", 100, 1, "75ball", 0, 50, 0, true, "r1", []⟩
    ⟨"r1", "75ball", ["p1"], [], none, false, true, false⟩ (by decide) (by decide)
  rw [h]
  have h100 : calculatePotentialWin 100 = 6984 := potentialWin_spec.2.1
  simp [h100]

/-! ## C8: draw-loop termination and exhaustion -/

/-- C8: with fewer called numbers than the variant's range, the rejection
loop terminates with a fresh in-range number (realised here by the draw
stream `0,1,2,…` within `range` iterations); once `calledNumbers.length`
equals the range, every draw stream loops forever (`none` for every fuel),
and `callNextNumber` — which enters the loop with no exhaustion guard —
never completes: it produces no state change and no event for any observed
number of iterations. -/
theorem draw_termination_exhaustion :
    ∀ (range : Nat) (called : List Nat), 0 < range → called.Nodup →
      (∀ n ∈ called, 1 ≤ n ∧ n ≤ range) →
      ((called.length < range →
         ∃ n, drawLoop range called (fun j => j) 0 range = some n ∧
           1 ≤ n ∧ n ≤ range ∧ n ∉ called)
       ∧ (called.length = range →
           (∀ randoms i fuel, drawLoop range called randoms i fuel = none)
           ∧ ∀ s rid room bt, findRoom s rid = some room → room.isCalling = true →
               boardTypes.find? (fun t => t.id == room.gameType) = some bt →
               bt.range = range → room.calledNumbers = called →
               ∀ randoms fuel, callNextNumber randoms fuel rid s = (s, []))) := by
  intro range called hrange hnd hb
  constructor
  · intro hlen
    obtain ⟨k, hk, hkc⟩ := exists_fresh hnd hb hlen
    obtain ⟨n, hn⟩ := drawLoop_id_isSome range 0 ⟨k, Nat.zero_le k, by omega, hkc⟩
    obtain ⟨hnc, hbd⟩ := drawLoop_eq_some hn
    exact ⟨n, hn, (hbd hrange).1, (hbd hrange).2, hnc⟩
  · intro hlen
    have hall := called_complete hnd hb hlen
    have hnone := drawLoop_exhausted hrange hall
    refine ⟨hnone, ?_⟩
    intro s rid room bt hfind hcalling hbt hbtr hcalled randoms fuel
    have hdl : drawLoop bt.range room.calledNumbers randoms 0 fuel = none := by
      rw [hbtr, hcalled]
      exact hnone randoms 0 fuel
    simp only [callNextNumber, hfind, hcalling, if_true, hbt, hdl]

/-- Witness for C8: a room of the 30-ball variant with all 30 numbers
called, on which every queued draw is a no-op, plus a concrete terminating
draw. -/
def exhaustedRoom : GameRoom :=
  ⟨"r1", "30ball", ["p1"], List.range' 1 30, some 30, true, true, true⟩

def exhaustedState : ServerState := ⟨[exhaustedRoom], []⟩

theorem draw_termination_exhaustion_witness :
    (drawLoop 3 [1, 2] (fun j => j) 0 3).isSome = true
    ∧ drawLoop 30 (List.range' 1 30) (fun _ => 7) 5 9 = none
    ∧ callNextNumber (fun _ => 0) 4 "r1" exhaustedState = (exhaustedState, []) := by
  refine ⟨?_, ?_, ?_⟩
  · obtain ⟨n, hn, -⟩ :=
      (draw_termination_exhaustion 3 [1, 2] (by norm_num) (by decide) (by decide)).1 (by decide)
    rw [hn]
    rfl
  · exact ((draw_termination_exhaustion 30 (List.range' 1 30) (by norm_num) (by decide)
      (by decide)).2 (by decide)).1 (fun _ => 7) 5 9
  · exact ((draw_termination_exhaustion 30 (List.range' 1 30) (by norm_num) (by decide)
      (by decide)).2 (by decide)).2 exhaustedState "r1" exhaustedRoom ⟨"30ball", "30-ቢንጎ", 30⟩
      (by decide) rfl (by decide) rfl rfl (fun _ => 0) 4

/-! ## C9: display formatting -/

/-- The display rule as the spec states it: letter
`"BINGO"[min(floor((n-1)/columnSize), 4)]` with `columnSize = range / 5`. -/
def specLetterDisplay (n range : Nat) : String :=
  String.mk [bingoLetters.getD (min ((n - 1) / (range / 5)) 4) 'B'] ++ "-" ++ toString n

/-- C9: for the lettered variants (`75ball`, `pattern`, `50ball`) the display
string is `letter-n` with letter `"BINGO"[min((n-1)/(range/5), 4)]`, and the
plain numeral for the other variants; in particular `B-1`, `I-16`, `O-75`
for the 75-number variant and `42` for the 90-number variant. -/
theorem display_number_spec :
    (∀ bt ∈ boardTypes, (bt.id = "75ball" ∨ bt.id = "pattern" ∨ bt.id = "50ball") →
      ∀ n, getDisplayNumber n bt.id = specLetterDisplay n bt.range)
    ∧ (∀ bt ∈ boardTypes, ¬(bt.id = "75ball" ∨ bt.id = "pattern" ∨ bt.id = "50ball") →
      ∀ n, getDisplayNumber n bt.id = toString n)
    ∧ getDisplayNumber 1 "75ball" = "B-1"
    ∧ getDisplayNumber 16 "75ball" = "I-16"
    ∧ getDisplayNumber 75 "75ball" = "O-75"
    ∧ getDisplayNumber 42 "90ball" = "42" := by
  refine ⟨?_, ?_, by decide, by decide, by decide, by decide⟩
  · intro bt hbt hid n
    fin_cases hbt <;> simp_all <;> rfl
  · intro bt hbt hid n
    fin_cases hbt <;> simp_all <;> rfl

/-- Witness for C9: the lettered rule applied to the 75-ball variant at 16. -/
theorem display_number_spec_witness :
    getDisplayNumber 16 "75ball" = specLetterDisplay 16 75 := by
  have h := display_number_spec.1 ⟨"75ball", "75-ቢንጎ", 75⟩ (by decide) (by norm_num) 16
  simpa using h

/-! ## C3: withdrawals -/

/-- A registered player with balance 50 for the withdrawal scenario. -/
def c3State : ServerState :=
  ⟨[], [("p1", ⟨"p1", "Bea", "0922", 100, 1, "90ball", 50, 50, 0, true, "r1", []⟩)]⟩

/-- C3: for a registered player (with an open socket), a withdrawal succeeds
exactly when an account is given, `amount ≥ 25` and `amount ≤ balance`; on
success the balance is debited by `amount` and the private
`withdrawal_processed` reply carries the new balance; on either failure the
state is unchanged and a private error reply is sent.  In particular,
withdrawing 30 from a balance of 50 leaves 20, and a second withdrawal of
30 fails with the insufficient-balance error, leaving 20. -/
theorem withdraw_spec :
    (∀ s pid rid account amount txId p,
      lookupPlayer s pid = some p → p.wsOpen = true →
      ((account ≠ "" ∧ 25 ≤ amount ∧ amount ≤ p.balance →
         lookupPlayer (handleWithdraw pid rid account amount txId s).1 pid =
           some { p with balance := p.balance - amount } ∧
         (handleWithdraw pid rid account amount txId s).2 =
           [Evt.direct p.id (Msg.withdrawalProcessed amount (p.balance - amount) txId)])
       ∧ (account = "" ∨ amount < 25 →
           (handleWithdraw pid rid account amount txId s).1 = s ∧
           (handleWithdraw pid rid account amount txId s).2 =
             [Evt.direct p.id (Msg.errorMsg "Invalid withdrawal request")])
       ∧ (account ≠ "" → 25 ≤ amount → p.balance < amount →
           (handleWithdraw pid rid account amount txId s).1 = s ∧
           (handleWithdraw pid rid account amount txId s).2 =
             [Evt.direct p.id (Msg.errorMsg "Insufficient balance")])))
    ∧ ((lookupPlayer (handleWithdraw "p1" "r1" "acct" 30 "tx1" c3State).1 "p1").map Player.balance
         = some 20
       ∧ (handleWithdraw "p1" "r1" "acct" 30 "tx1" c3State).2 =
           [Evt.direct "p1" (Msg.withdrawalProcessed 30 20 "tx1")]
       ∧ (handleWithdraw "p1" "r1" "acct" 30 "tx2"
            (handleWithdraw "p1" "r1" "acct" 30 "tx1" c3State).1).1 =
           (handleWithdraw "p1" "r1" "acct" 30 "tx1" c3State).1
       ∧ (handleWithdraw "p1" "r1" "acct" 30 "tx2"
            (handleWithdraw "p1" "r1" "acct" 30 "tx1" c3State).1).2 =
           [Evt.direct "p1" (Msg.errorMsg "Insufficient balance")]
       ∧ ((lookupPlayer (handleWithdraw "p1" "r1" "acct" 30 "tx2"
            (handleWithdraw "p1" "r1" "acct" 30 "tx1" c3State).1).1 "p1").map Player.balance
         = some 20)) := by
  constructor
  · intro s pid rid account amount txId p hp hws
    refine ⟨?_, ?_, ?_⟩
    · rintro ⟨ha, h25, hba⟩
      have h1 : ¬(account = "" ∨ amount < 25) := by
        push_neg
        exact ⟨ha, by omega⟩
      have h2 : ¬(p.balance < amount) := by omega
      simp only [handleWithdraw, hp]
      rw [if_neg h1, if_neg h2]
      constructor
      · unfold lookupPlayer
        exact lookupKey_setPlayer_self pid _ s.players
      · rfl
    · intro h
      simp only [handleWithdraw, hp]
      rw [if_pos h]
      unfold sendErrorTo
      rw [if_pos hws]
      exact ⟨rfl, rfl⟩
    · intro ha h25 hlt
      have h1 : ¬(account = "" ∨ amount < 25) := by
        push_neg
        exact ⟨ha, by omega⟩
      simp only [handleWithdraw, hp]
      rw [if_neg h1, if_pos hlt]
      unfold sendErrorTo
      rw [if_pos hws]
      exact ⟨rfl, rfl⟩
  · exact ⟨by decide, by decide, by decide, by decide, by decide⟩

/-- Witness for C3: the general part applied to the scenario's first
withdrawal. -/
theorem withdraw_spec_witness :
    lookupPlayer (handleWithdraw "p1" "r1" "acct" 30 "tx1" c3State).1 "p1" =
      some ⟨"p1", "Bea", "0922", 100, 1, "90ball", 50, 20, 0, true, "r1", []⟩
    ∧ (handleWithdraw "p1" "r1" "acct" 30 "tx1" c3State).2 =
      [Evt.direct "p1" (Msg.withdrawalProcessed 30 20 "tx1")] := by
  have h := (withdraw_spec.1 c3State "p1" "r1" "acct" 30 "tx1"
    ⟨"p1", "Bea", "0922", 100, 1, "90ball", 50, 50, 0, true, "r1", []⟩
    (by decide) rfl).1 ⟨by decide, by decide, by decide⟩
  exact ⟨by rw [h.1]; decide, by rw [h.2]; decide⟩

/-! ## C10: announce_win does not check room membership -/

def c10Player : Player := ⟨"p1", "Cal", "0933", 100, 1, "75ball", 0, 0, 0, true, "rA", [1, 2]⟩

def c10RoomB : GameRoom := ⟨"rB", "75ball", ["p2"], [5], some 5, false, true, false⟩

def c10State : ServerState :=
  ⟨[⟨"rA", "75ball", ["p1"], [], none, false, true, false⟩, c10RoomB],
   [("p1", c10Player), ("p2", ⟨"p2", "Dee", "0944", 10, 1, "75ball", 0, 0, 0, true, "rB", []⟩)]⟩

/-- The result of crediting a win payout to a player (both payout paths do
exactly this to `balance` and `won`). -/
def creditedPlayer (p : Player) : Player :=
  { p with
      won := p.won + calculatePotentialWin p.stake
      balance := p.balance + calculatePotentialWin p.stake }

/-- C10: `announce_win` checks only that the player and the room exist —
for a player whose own `roomId` differs from the target room, the payout is
still credited (and the marked set cleared), `win_announced` is still
broadcast to the target room, and `balance_updated` goes to the winner;
whereas `mark_number` with the same mismatched room id is a complete no-op. -/
theorem announce_win_no_membership_check :
    ∀ s pid rid pattern n p room,
      lookupPlayer s pid = some p → findRoom s rid = some room → p.roomId ≠ rid →
      (lookupPlayer (handleAnnounceWin pid rid pattern s).1 pid =
         some { creditedPlayer p with markedNumbers := [] }
       ∧ (handleAnnounceWin pid rid pattern s).2 =
           broadcastToRoom { s with players := setPlayer pid (creditedPlayer p) s.players } rid
             (Msg.winAnnounced p.name pattern (calculatePotentialWin p.stake)) none
           ++ [Evt.direct p.id (Msg.balanceUpdated (p.balance + calculatePotentialWin p.stake)
                 (p.won + calculatePotentialWin p.stake))]
       ∧ handleMarkNumber pid rid n s = (s, [])) := by
  intro s pid rid pattern n p room hp hroom hne
  refine ⟨?_, ?_, ?_⟩
  · simp only [handleAnnounceWin, hp, hroom]
    unfold lookupPlayer
    exact lookupKey_setPlayer_self pid _ _
  · simp only [handleAnnounceWin, hp, hroom]
    rfl
  · simp only [handleMarkNumber, hp]
    rw [if_pos hne]

/-- Witness for C10: player `p1` of room `rA` announces a win in room `rB`. -/
theorem announce_win_no_membership_check_witness :
    lookupPlayer (handleAnnounceWin "p1" "rB" "line" c10State).1 "p1" =
      some { creditedPlayer c10Player with markedNumbers := [] }
    ∧ handleMarkNumber "p1" "rB" 4 c10State = (c10State, []) := by
  have h := announce_win_no_membership_check c10State "p1" "rB" "line" 4 c10Player c10RoomB
    (by decide) (by decide) (by decide)
  exact ⟨h.1, h.2.2⟩

/-! ## C4: registration validation and id generation -/

theorem mem_addMember_self (pid : String) (l : List String) : pid ∈ addMember pid l := by
  unfold addMember
  by_cases h : pid ∈ l
  · rwa [if_pos h]
  · rw [if_neg h]
    simp

theorem findRoomIn_exists_of_mem {l : List GameRoom} {r : GameRoom} (h : r ∈ l) :
    ∃ r₀, findRoomIn r.id l = some r₀ := by
  induction l with
  | nil => simp at h
  | cons r' rest ih =>
    by_cases hid : r'.id = r.id
    · exact ⟨r', by simp [findRoomIn, hid]⟩
    · rcases List.mem_cons.mp h with h' | h'
      · exact absurd (congrArg GameRoom.id h'.symm) hid
      · obtain ⟨r₀, hr₀⟩ := ih h'
        exact ⟨r₀, by simp [findRoomIn, hid, hr₀]⟩

/-- After `getOrCreateRoom`, the returned room id is present in the room
table (either the matched room or the freshly inserted one). -/
theorem getOrCreateRoom_find (gt fresh : String) (s : ServerState) :
    ∃ room₀, findRoomIn (getOrCreateRoom gt fresh s).1 (getOrCreateRoom gt fresh s).2.rooms
      = some room₀ := by
  cases hf : s.rooms.find? (fun room => room.gameType == gt && decide (room.players.length < 90)) with
  | some r =>
    simp only [getOrCreateRoom, hf]
    exact findRoomIn_exists_of_mem (List.mem_of_find?_eq_some hf)
  | none =>
    simp only [getOrCreateRoom, hf]
    refine ⟨⟨fresh, gt, [], [], none, false, true, false⟩, ?_⟩
    rw [findRoomIn_setRoom]
    simp

/-- Splitting a character list at a separator none of the prefix parts
contain is unambiguous. -/
theorem append_underscore_inj :
    ∀ (l₁ r₁ l₂ r₂ : List Char), '_' ∉ l₁ → '_' ∉ l₂ →
      l₁ ++ '_' :: r₁ = l₂ ++ '_' :: r₂ → l₁ = l₂ ∧ r₁ = r₂ := by
  intro l₁
  induction l₁ with
  | nil =>
    intro r₁ l₂ r₂ _ h2 heq
    cases l₂ with
    | nil => simpa using heq
    | cons c t =>
      simp only [List.nil_append, List.cons_append, List.cons.injEq] at heq
      have hmem : '_' ∈ c :: t := by
        rw [heq.1]
        exact List.mem_cons_self c t
      exact absurd hmem h2
  | cons c t ih =>
    intro r₁ l₂ r₂ h1 h2 heq
    cases l₂ with
    | nil =>
      simp only [List.nil_append, List.cons_append, List.cons.injEq] at heq
      have hmem : '_' ∈ c :: t := by
        rw [← heq.1]
        exact List.mem_cons_self c t
      exact absurd hmem h1
    | cons c' t' =>
      simp only [List.cons_append, List.cons.injEq] at heq
      have h1' : '_' ∉ t := fun hm => h1 (List.mem_cons_of_mem _ hm)
      have h2' : '_' ∉ t' := fun hm => h2 (List.mem_cons_of_mem _ hm)
      obtain ⟨ht, hr⟩ := ih r₁ t' r₂ h1' h2' heq.2
      exact ⟨by rw [heq.1, ht], hr⟩

theorem string_of_data {a b : String} (h : a.data = b.data) : a = b := by
  cases a
  cases b
  exact congrArg String.mk h

/-- The reversed character list of a generated player id, split at the last
underscore. -/
theorem generatePlayerId_data_reverse (now suffix : String) :
    (generatePlayerId now suffix).data.reverse =
      suffix.data.reverse ++ '_' :: (now.data.reverse ++ ("player_" : String).data.reverse) := by
  simp [generatePlayerId, String.data_append, List.reverse_append]

/-- Ids built from distinct `(Date.now(), random-suffix)` seeds are
distinct: `generatePlayerId` is injective whenever the random suffix
contains no underscore (the base-36 suffix of the source never does). -/
theorem generatePlayerId_inj (now₁ s₁ now₂ s₂ : String)
    (h1 : '_' ∉ s₁.data) (h2 : '_' ∉ s₂.data)
    (heq : generatePlayerId now₁ s₁ = generatePlayerId now₂ s₂) : now₁ = now₂ ∧ s₁ = s₂ := by
  have hd := congrArg (fun x : String => x.data.reverse) heq
  simp only [] at hd
  rw [generatePlayerId_data_reverse, generatePlayerId_data_reverse] at hd
  have h1' : '_' ∉ s₁.data.reverse := fun hm => h1 (List.mem_reverse.mp hm)
  have h2' : '_' ∉ s₂.data.reverse := fun hm => h2 (List.mem_reverse.mp hm)
  obtain ⟨hsuf, hrest⟩ := append_underscore_inj _ _ _ _ h1' h2' hd
  have hnow := List.append_cancel_right hrest
  constructor
  · exact string_of_data (List.reverse_injective hnow)
  · exact string_of_data (List.reverse_injective hsuf)

/-- Counterexample to C4 as stated: a *negative* stake is accepted.  The JS
guard `!stake` only catches `0`/missing, so registering with stake `-5`
creates the player and replies `player_connected` — no validation error. -/
theorem register_negative_stake_accepted :
    (lookupPlayer (handleRegisterPlayer ⟨"Eve", "0955", -5, 1, "75ball", 0⟩ true "p1" "r1"
        initialState).1 "p1").isSome = true
    ∧ (handleRegisterPlayer ⟨"Eve", "0955", -5, 1, "75ball", 0⟩ true "p1" "r1" initialState).2 =
        [Evt.direct "p1" (Msg.playerConnected "p1" "r1")] := by decide

/-- C4 (amended): registration fails with a private validation error and no
state change exactly when `name`, `phone`, `stake` or `gameType` is missing
(the falsy values `""`/`0`) — a *negative* stake is accepted; otherwise the
player is created under the supplied generated id and inserted into the
assigned room.  Generated ids are injective in their `(timestamp, random
suffix)` seed (underscore-free suffix), so ids are unique within the
process lifetime as long as the generator never repeats a seed. -/
theorem register_validation_spec :
    (∀ (d : RegisterData) (wsOpen : Bool) (pid rid : String) (s : ServerState),
      ((d.name = "" ∨ d.phone = "" ∨ d.stake = 0 ∨ d.gameType = "") →
        handleRegisterPlayer d wsOpen pid rid s =
          (s, if wsOpen then [Evt.connSend (Msg.errorMsg "Missing required registration data")]
              else []))
      ∧ (¬(d.name = "" ∨ d.phone = "" ∨ d.stake = 0 ∨ d.gameType = "") →
          ∃ room, findRoom (handleRegisterPlayer d wsOpen pid rid s).1
              (getOrCreateRoom d.gameType rid s).1 = some room
            ∧ pid ∈ room.players
            ∧ lookupPlayer (handleRegisterPlayer d wsOpen pid rid s).1 pid =
                some ⟨pid, d.name, d.phone, d.stake, (if d.boardId = 0 then 1 else d.boardId),
                  d.gameType, d.payment, d.payment, 0, wsOpen,
                  (getOrCreateRoom d.gameType rid s).1, []⟩))
    ∧ (∀ now₁ s₁ now₂ s₂ : String, '_' ∉ s₁.data → '_' ∉ s₂.data →
        generatePlayerId now₁ s₁ = generatePlayerId now₂ s₂ → now₁ = now₂ ∧ s₁ = s₂) := by
  refine ⟨?_, generatePlayerId_inj⟩
  intro d wsOpen pid rid s
  constructor
  · intro hv
    simp only [handleRegisterPlayer, if_pos hv]
  · intro hv
    obtain ⟨room₀, hroom₀⟩ := getOrCreateRoom_find d.gameType rid s
    have hid : room₀.id = (getOrCreateRoom d.gameType rid s).1 := (findRoomIn_mem hroom₀).2
    have hfind : ∀ pl : Player,
        findRoom ⟨(getOrCreateRoom d.gameType rid s).2.rooms,
          setPlayer pid pl (getOrCreateRoom d.gameType rid s).2.players⟩
          (getOrCreateRoom d.gameType rid s).1 = some room₀ := fun _ => hroom₀
    have hstep : (handleRegisterPlayer d wsOpen pid rid s).1 =
        ⟨setRoom { room₀ with players := addMember pid room₀.players }
            (getOrCreateRoom d.gameType rid s).2.rooms,
          setPlayer pid ⟨pid, d.name, d.phone, d.stake,
              (if d.boardId = 0 then 1 else d.boardId), d.gameType, d.payment, d.payment, 0,
              wsOpen, (getOrCreateRoom d.gameType rid s).1, []⟩
            (getOrCreateRoom d.gameType rid s).2.players⟩ := by
      simp only [handleRegisterPlayer, if_neg hv, hfind]
    refine ⟨{ room₀ with players := addMember pid room₀.players }, ?_, mem_addMember_self pid _, ?_⟩
    · rw [hstep]
      unfold findRoom
      rw [findRoomIn_setRoom]
      simp [hid]
    · rw [hstep]
      unfold lookupPlayer
      exact lookupKey_setPlayer_self pid _ _

/-- Witness for C4: a valid registration into the empty state, plus the id
injectivity applied to a concrete seed. -/
theorem register_validation_spec_witness :
    lookupPlayer (handleRegisterPlayer ⟨"Fay", "0966", 100, 1, "75ball", 20⟩ true "p9" "r9"
        initialState).1 "p9" =
      some ⟨"p9", "Fay", "0966", 100, 1, "75ball", 20, 20, 0, true, "r9", []⟩
    ∧ ("1700" : String) = "1700" := by
  constructor
  · obtain ⟨room, -, -, h3⟩ :=
      (register_validation_spec.1 ⟨"Fay", "0966", 100, 1, "75ball", 20⟩ true "p9" "r9"
        initialState).2 (by decide)
    rw [h3]
    decide
  · exact (register_validation_spec.2 "1700" "abc" "1700" "abc" (by decide) (by decide) rfl).1

/-! ## State invariants over operation sequences -/

/-- The per-room draw invariant of C1: no duplicate called numbers, and all
of them within the room variant's range. -/
def RoomInv (room : GameRoom) : Prop :=
  room.calledNumbers.Nodup ∧
  ∀ bt, boardTypes.find? (fun t => t.id == room.gameType) = some bt →
    ∀ n ∈ room.calledNumbers, 1 ≤ n ∧ n ≤ bt.range

/-- The global room-table invariant: distinct room ids, and every room
satisfies the draw invariant and the 90-member capacity bound. -/
def StateOk (s : ServerState) : Prop :=
  (s.rooms.map GameRoom.id).Nodup ∧
  ∀ room ∈ s.rooms, RoomInv room ∧ room.players.length ≤ 90

theorem StateOk_setRoom {s : ServerState} (pl : List (String × Player)) (room' : GameRoom)
    (hok : StateOk s) (h1 : RoomInv room') (h2 : room'.players.length ≤ 90) :
    StateOk ⟨setRoom room' s.rooms, pl⟩ := by
  refine ⟨setRoom_ids_nodup hok.1, ?_⟩
  intro r hr
  rcases mem_setRoom hr with h | h
  · subst h
    exact ⟨h1, h2⟩
  · exact hok.2 r h

/-- Both branches of `getOrCreateRoom` leave the player table unchanged. -/
theorem getOrCreateRoom_players (gt fresh : String) (s : ServerState) :
    (getOrCreateRoom gt fresh s).2.players = s.players := by
  unfold getOrCreateRoom
  cases hf : s.rooms.find? (fun room => room.gameType == gt && decide (room.players.length < 90)) <;> rfl

/-- `getOrCreateRoom` preserves the state invariant, and the room it
returns has strictly fewer than 90 members. -/
theorem getOrCreateRoom_ok {s : ServerState} (gt fresh : String) (hok : StateOk s) :
    StateOk (getOrCreateRoom gt fresh s).2 ∧
    ∀ room₀, findRoomIn (getOrCreateRoom gt fresh s).1 (getOrCreateRoom gt fresh s).2.rooms
      = some room₀ → room₀.players.length < 90 := by
  cases hf : s.rooms.find? (fun room => room.gameType == gt && decide (room.players.length < 90)) with
  | some r =>
    have hmem := List.mem_of_find?_eq_some hf
    have hpred := List.find?_some hf
    have hlt : r.players.length < 90 := by
      have := (Bool.and_eq_true _ _).mp hpred
      exact of_decide_eq_true this.2
    constructor
    · simp only [getOrCreateRoom, hf]
      exact hok
    · intro room₀ h₀
      simp only [getOrCreateRoom, hf] at h₀
      rw [findRoomIn_of_mem_nodup hok.1 hmem] at h₀
      cases h₀
      exact hlt
  | none =>
    constructor
    · simp only [getOrCreateRoom, hf]
      exact StateOk_setRoom _ _ hok ⟨List.nodup_nil, by intro bt _ n hn; simp at hn⟩ (by simp)
    · intro room₀ h₀
      simp only [getOrCreateRoom, hf] at h₀
      rw [findRoomIn_setRoom] at h₀
      simp only [if_pos rfl] at h₀
      cases h₀
      simp

/-- The state produced by a successful registration, explicitly. -/
theorem register_success_state (d : RegisterData) (wsOpen : Bool) (pid rid : String)
    (s : ServerState)
    (hv : ¬(d.name = "" ∨ d.phone = "" ∨ d.stake = 0 ∨ d.gameType = ""))
    (room₀ : GameRoom)
    (hroom₀ : findRoomIn (getOrCreateRoom d.gameType rid s).1
      (getOrCreateRoom d.gameType rid s).2.rooms = some room₀) :
    (handleRegisterPlayer d wsOpen pid rid s).1 =
      ⟨setRoom { room₀ with players := addMember pid room₀.players }
          (getOrCreateRoom d.gameType rid s).2.rooms,
        setPlayer pid ⟨pid, d.name, d.phone, d.stake,
            (if d.boardId = 0 then 1 else d.boardId), d.gameType, d.payment, d.payment, 0,
            wsOpen, (getOrCreateRoom d.gameType rid s).1, []⟩
          (getOrCreateRoom d.gameType rid s).2.players⟩ := by
  have hfind : ∀ pl : Player,
      findRoom ⟨(getOrCreateRoom d.gameType rid s).2.rooms,
        setPlayer pid pl (getOrCreateRoom d.gameType rid s).2.players⟩
        (getOrCreateRoom d.gameType rid s).1 = some room₀ := fun _ => hroom₀
  simp only [handleRegisterPlayer, if_neg hv, hfind]

/-- The rooms table after the non-registration handlers that only touch
players. -/
theorem rooms_handleMarkNumber (pid rid : String) (n : Nat) (s : ServerState) :
    (handleMarkNumber pid rid n s).1.rooms = s.rooms := by
  cases hp : lookupPlayer s pid with
  | none => simp only [handleMarkNumber, hp]
  | some p =>
    by_cases h : p.roomId ≠ rid <;> simp [handleMarkNumber, hp, h]

theorem rooms_handleAnnounceWin (pid rid pattern : String) (s : ServerState) :
    (handleAnnounceWin pid rid pattern s).1.rooms = s.rooms := by
  cases hp : lookupPlayer s pid with
  | none => simp only [handleAnnounceWin, hp]
  | some p =>
    cases hr : findRoom s rid with
    | none => simp only [handleAnnounceWin, hp, hr]
    | some room => simp only [handleAnnounceWin, hp, hr]

theorem rooms_handleGetGameState (pid rid : String) (s : ServerState) :
    (handleGetGameState pid rid s).1.rooms = s.rooms := by
  cases hp : lookupPlayer s pid with
  | none => simp only [handleGetGameState, hp]
  | some p =>
    cases hr : findRoom s rid with
    | none => simp only [handleGetGameState, hp, hr]
    | some room => simp only [handleGetGameState, hp, hr]

theorem rooms_handleWithdraw (pid rid account : String) (amount : Int) (txId : String)
    (s : ServerState) : (handleWithdraw pid rid account amount txId s).1.rooms = s.rooms := by
  cases hp : lookupPlayer s pid with
  | none => simp only [handleWithdraw, hp]
  | some p =>
    simp only [handleWithdraw, hp]
    by_cases h1 : account = "" ∨ amount < 25
    · rw [if_pos h1]
    · rw [if_neg h1]
      by_cases h2 : p.balance < amount
      · rw [if_pos h2]
      · rw [if_neg h2]

theorem rooms_checkForWinners (rid : String) (s : ServerState) :
    (checkForWinners rid s).1.rooms = s.rooms := by
  unfold checkForWinners
  cases hr : findRoom s rid with
  | none => rfl
  | some room => exact winnersAux_rooms rid room.calledNumbers room.players s []

/-- The room updated by one draw. -/
def drawnRoom (room : GameRoom) (n : Nat) : GameRoom :=
  { room with calledNumbers := room.calledNumbers ++ [n], currentNumber := some n }

/-- The state right after a draw is appended, before the winner check. -/
def drawnState (s : ServerState) (room : GameRoom) (n : Nat) : ServerState :=
  { s with rooms := setRoom (drawnRoom room n) s.rooms }

/-- One timer fire either does nothing (no room, flag down, unknown variant,
or the rejection loop still running) or appends one freshly drawn number and
runs the broadcast and winner check. -/
theorem callNextNumber_eq (randoms : Nat → Nat) (fuel : Nat) (rid : String) (s : ServerState) :
    callNextNumber randoms fuel rid s = (s, []) ∨
    ∃ room bt n, findRoom s rid = some room ∧ room.isCalling = true ∧
      boardTypes.find? (fun t => t.id == room.gameType) = some bt ∧
      drawLoop bt.range room.calledNumbers randoms 0 fuel = some n ∧
      callNextNumber randoms fuel rid s =
        ((checkForWinners rid (drawnState s room n)).1,
          broadcastToRoom (drawnState s room n) rid
            (Msg.numberCalled n (getDisplayNumber n room.gameType)
              (lastN 10 (room.calledNumbers ++ [n]))) none
          ++ (checkForWinners rid (drawnState s room n)).2) := by
  cases hf : findRoom s rid with
  | none =>
    left
    simp only [callNextNumber, hf]
  | some room =>
    cases hc : room.isCalling with
    | false =>
      left
      simp only [callNextNumber, hf, hc]
      rfl
    | true =>
      cases hbt : boardTypes.find? (fun t => t.id == room.gameType) with
      | none =>
        left
        simp only [callNextNumber, hf, hc, if_true, hbt]
      | some bt =>
        cases hdl : drawLoop bt.range room.calledNumbers randoms 0 fuel with
        | none =>
          left
          simp only [callNextNumber, hf, hc, if_true, hbt, hdl]
        | some n =>
          right
          refine ⟨room, bt, n, rfl, hc, hbt, hdl, ?_⟩
          simp only [callNextNumber, hf, hc, if_true, hbt, hdl, drawnState, drawnRoom]

theorem addMember_length (pid : String) (l : List String) :
    (addMember pid l).length ≤ l.length + 1 := by
  unfold addMember
  by_cases h : pid ∈ l
  · rw [if_pos h]
    omega
  · rw [if_neg h]
    simp

theorem StateOk_of_rooms_eq {s s' : ServerState} (h : s'.rooms = s.rooms) (hok : StateOk s) :
    StateOk s' := by
  unfold StateOk at *
  rw [h]
  exact hok

theorem StateOk_initial : StateOk initialState := by
  constructor
  · simp [initialState]
  · intro room h
    simp [initialState] at h

/-- Every dispatched operation preserves the room-table invariant. -/
theorem applyOp_StateOk {s : ServerState} (op : Op) (hok : StateOk s) :
    StateOk (applyOp s op).1 := by
  cases op with
  | register d wsOpen pid rid =>
    simp only [applyOp]
    by_cases hv : d.name = "" ∨ d.phone = "" ∨ d.stake = 0 ∨ d.gameType = ""
    · simp only [handleRegisterPlayer, if_pos hv]
      exact hok
    · obtain ⟨room₀, hroom₀⟩ := getOrCreateRoom_find d.gameType rid s
      obtain ⟨hok₁, hcap⟩ := getOrCreateRoom_ok d.gameType rid hok
      have hlt := hcap room₀ hroom₀
      rw [register_success_state d wsOpen pid rid s hv room₀ hroom₀]
      refine StateOk_setRoom _ _ hok₁ ?_ ?_
      · exact (hok₁.2 room₀ (findRoomIn_mem hroom₀).1).1
      · have := addMember_length pid room₀.players
        simp only [GameRoom.players] at *
        omega
  | mark pid rid n => exact StateOk_of_rooms_eq (rooms_handleMarkNumber pid rid n s) hok
  | announceWin pid rid pat => exact StateOk_of_rooms_eq (rooms_handleAnnounceWin pid rid pat s) hok
  | getGameState pid rid => exact StateOk_of_rooms_eq (rooms_handleGetGameState pid rid s) hok
  | withdraw pid rid acc amt tx =>
    exact StateOk_of_rooms_eq (rooms_handleWithdraw pid rid acc amt tx s) hok
  | startCalling rid =>
    simp only [applyOp]
    cases hf : findRoom s rid with
    | none =>
      simp only [handleStartCalling, hf]
      exact hok
    | some room =>
      simp only [handleStartCalling, hf]
      by_cases hc : room.isCalling
      · rw [if_pos hc]
        exact hok
      · rw [if_neg hc]
        have hmem := (findRoomIn_mem hf).1
        exact StateOk_setRoom _ _ hok (hok.2 room hmem).1 (hok.2 room hmem).2
  | stopCalling rid =>
    simp only [applyOp]
    cases hf : findRoom s rid with
    | none =>
      simp only [handleStopCalling, hf]
      exact hok
    | some room =>
      simp only [handleStopCalling, hf]
      by_cases hc : room.isCalling
      · rw [if_pos hc]
        have hmem := (findRoomIn_mem hf).1
        exact StateOk_setRoom _ _ hok (hok.2 room hmem).1 (hok.2 room hmem).2
      · rw [if_neg hc]
        exact hok
  | draw rid randoms fuel =>
    simp only [applyOp]
    rcases callNextNumber_eq randoms fuel rid s with h | ⟨room, bt, n, hf, hc, hbt, hdl, heq⟩
    · rw [h]
      exact hok
    · rw [heq]
      have hmem := (findRoomIn_mem hf).1
      have hinv := (hok.2 room hmem).1
      have hfresh := drawLoop_eq_some hdl
      have hrange := boardTypes_range_pos hbt
      refine StateOk_of_rooms_eq (rooms_checkForWinners rid (drawnState s room n)) ?_
      refine StateOk_setRoom _ _ hok ?_ ?_
      · constructor
        · simp only [drawnRoom, List.nodup_append, List.nodup_cons]
          exact ⟨hinv.1, by simp, fun a ha han => hfresh.1 ((List.mem_singleton.mp han) ▸ ha)⟩
        · intro bt' hbt' m hm
          have hbt'' : bt' = bt := by
            simp only [drawnRoom] at hbt'
            rw [hbt] at hbt'
            exact (Option.some.inj hbt').symm
          subst hbt''
          simp only [drawnRoom, List.mem_append, List.mem_singleton] at hm
          rcases hm with hm | hm
          · exact hinv.2 bt' hbt m hm
          · subst hm
            exact (hfresh.2 hrange)
      · exact (hok.2 room hmem).2

theorem runOps_StateOk (ops : List Op) : ∀ s : ServerState, StateOk s →
    StateOk (runOps ops s).1 := by
  induction ops with
  | nil => intro s hok; exact hok
  | cons op rest ih =>
    intro s hok
    simp only [runOps]
    exact ih _ (applyOp_StateOk op hok)

/-! ## C1: the called-numbers invariant -/

/-- C1: starting from the empty server state, after any sequence of
dispatched operations (including any number of timer-driven draws with any
random streams), every room's `calledNumbers` has no duplicates, and every
called value lies in `[1, range]` for the room's board variant. -/
theorem calledNumbers_nodup_inRange :
    ∀ (ops : List Op) (room : GameRoom), room ∈ (runOps ops initialState).1.rooms →
      RoomInv room := by
  intro ops room hmem
  exact ((runOps_StateOk ops initialState StateOk_initial).2 room hmem).1

/-- Witness for C1: one registration, a scheduler start, and one concrete
draw. -/
theorem calledNumbers_nodup_inRange_witness :
    RoomInv ⟨"r1", "30ball", ["p1"], [1], some 1, true, true, true⟩ :=
  calledNumbers_nodup_inRange
    [Op.register ⟨"Ann", "0910", 10, 1, "30ball", 0⟩ true "p1" "r1",
     Op.startCalling "r1", Op.draw "r1" (fun j => j) 3]
    ⟨"r1", "30ball", ["p1"], [1], some 1, true, true, true⟩ (by decide)

/-! ## C6: first-fit matchmaking and the capacity bound -/

/-- C6: room assignment scans the room table in insertion order and returns
the first room of the same variant with fewer than 90 members; when none
qualifies (in particular when every room of the variant is full), a new
room with empty draw state is inserted under the fresh id and returned; and
over every operation sequence from the empty state no room ever holds more
than 90 members. -/
theorem matchmaking_first_fit_capacity :
    (∀ (s : ServerState) (gt fresh : String) (r : GameRoom),
      s.rooms.find? (fun room => room.gameType == gt && decide (room.players.length < 90))
        = some r → getOrCreateRoom gt fresh s = (r.id, s))
    ∧ (∀ (s : ServerState) (gt fresh : String),
      s.rooms.find? (fun room => room.gameType == gt && decide (room.players.length < 90))
        = none →
      (getOrCreateRoom gt fresh s).1 = fresh ∧
      findRoom (getOrCreateRoom gt fresh s).2 fresh =
        some ⟨fresh, gt, [], [], none, false, true, false⟩)
    ∧ (∀ (s : ServerState) (gt _fresh : String),
      (∀ room ∈ s.rooms, room.gameType = gt → 90 ≤ room.players.length) →
      s.rooms.find? (fun room => room.gameType == gt && decide (room.players.length < 90))
        = none)
    ∧ (∀ (ops : List Op) (room : GameRoom), room ∈ (runOps ops initialState).1.rooms →
      room.players.length ≤ 90) := by
  refine ⟨?_, ?_, ?_, ?_⟩
  · intro s gt fresh r hf
    simp only [getOrCreateRoom, hf]
  · intro s gt fresh hf
    refine ⟨by simp only [getOrCreateRoom, hf], ?_⟩
    simp only [getOrCreateRoom, hf]
    unfold findRoom
    rw [findRoomIn_setRoom]
    simp
  · intro s gt _fresh hfull
    rw [List.find?_eq_none]
    intro room hroom
    by_cases hgt : room.gameType = gt
    · have := hfull room hroom hgt
      simp [hgt, this]
    · simp [hgt]
  · intro ops room hmem
    exact ((runOps_StateOk ops initialState StateOk_initial).2 room hmem).2

/-- Witness for C6: a concrete first-fit hit, a concrete creation, the
full-rooms case, and the capacity bound after a concrete registration. -/
theorem matchmaking_first_fit_capacity_witness :
    getOrCreateRoom "75ball" "rNew" c10State = ("rA", c10State)
    ∧ (getOrCreateRoom "90ball" "rNew" c10State).1 = "rNew"
    ∧ ((runOps [Op.register ⟨"Ann", "0910", 10, 1, "30ball", 0⟩ true "p1" "r1"]
        initialState).1.rooms.all fun room => room.players.length ≤ 90) = true := by
  refine ⟨?_, ?_, ?_⟩
  · exact matchmaking_first_fit_capacity.1 c10State "75ball" "rNew"
      ⟨"rA", "75ball", ["p1"], [], none, false, true, false⟩ (by decide)
  · exact (matchmaking_first_fit_capacity.2.1 c10State "90ball" "rNew" (by decide)).1
  · rw [List.all_eq_true]
    intro room hroom
    simpa using matchmaking_first_fit_capacity.2.2.2
      [Op.register ⟨"Ann", "0910", 10, 1, "30ball", 0⟩ true "p1" "r1"] room hroom

/-! ## C5: the balance invariant -/

/-- The per-player economic invariant: nonnegative balance and stake. -/
def BalInv (s : ServerState) : Prop :=
  ∀ pid p, lookupKey pid s.players = some p → 0 ≤ p.balance ∧ 0 ≤ p.stake

theorem lookupKey_setPlayer_cases {pid pid' : String} {p q : Player}
    {l : List (String × Player)} (h : lookupKey pid' (setPlayer pid p l) = some q) :
    (pid' = pid ∧ q = p) ∨ lookupKey pid' l = some q := by
  by_cases hpp : pid' = pid
  · subst hpp
    rw [lookupKey_setPlayer_self] at h
    exact .inl ⟨rfl, (Option.some.inj h).symm⟩
  · rw [lookupKey_setPlayer_ne _ _ _ _ hpp] at h
    exact .inr h

theorem calc_nonneg {stake : Int} (h : 0 ≤ stake) : 0 ≤ calculatePotentialWin stake := by
  unfold calculatePotentialWin
  rw [Int.le_floor]
  have h' : (0 : ℚ) ≤ (stake : ℚ) := by exact_mod_cast h
  nlinarith [h']

theorem BalInv_setPlayer {s : ServerState} (rooms' : List GameRoom) {pid : String} {p : Player}
    (hb : BalInv s) (h1 : 0 ≤ p.balance) (h2 : 0 ≤ p.stake) :
    BalInv ⟨rooms', setPlayer pid p s.players⟩ := by
  intro pid' q hq
  rcases lookupKey_setPlayer_cases hq with ⟨_, hqp⟩ | hold
  · subst hqp
    exact ⟨h1, h2⟩
  · exact hb pid' q hold

theorem BalInv_of_players_eq {s s' : ServerState} (h : s'.players = s.players)
    (hb : BalInv s) : BalInv s' := by
  unfold BalInv at *
  rw [h]
  exact hb

theorem winnersAux_BalInv (rid : String) (called : List Nat) :
    ∀ (mems : List String) (s : ServerState) (evts : List Evt), BalInv s →
      BalInv (winnersAux rid called mems (s, evts)).1 := by
  intro mems
  induction mems with
  | nil => intro s evts hb; exact hb
  | cons m rest ih =>
    intro s evts hb
    cases hm : lookupPlayer s m with
    | none =>
      simp only [winnersAux, hm]
      exact ih s evts hb
    | some p =>
      simp only [winnersAux, hm]
      by_cases hwin : called.all (fun n => p.markedNumbers.contains n)
      · rw [if_pos hwin]
        refine ih _ _ ?_
        obtain ⟨hbal, hstk⟩ := hb m p hm
        have hw := calc_nonneg hstk
        refine BalInv_setPlayer s.rooms hb ?_ hstk
        show 0 ≤ p.balance + calculatePotentialWin p.stake
        omega
      · rw [if_neg hwin]
        exact ih s evts hb

theorem checkForWinners_BalInv (rid : String) (s : ServerState) (hb : BalInv s) :
    BalInv (checkForWinners rid s).1 := by
  unfold checkForWinners
  cases hr : findRoom s rid with
  | none => exact hb
  | some room => exact winnersAux_BalInv rid room.calledNumbers room.players s [] hb

/-- The side condition of the amended C5: registrations carry a nonnegative
payment and stake. -/
def RegNonneg : Op → Prop
  | .register d _ _ _ => 0 ≤ d.payment ∧ 0 ≤ d.stake
  | _ => True

theorem applyOp_BalInv {s : ServerState} (op : Op) (hb : BalInv s) (hr : RegNonneg op) :
    BalInv (applyOp s op).1 := by
  cases op with
  | register d wsOpen pid rid =>
    simp only [applyOp]
    by_cases hv : d.name = "" ∨ d.phone = "" ∨ d.stake = 0 ∨ d.gameType = ""
    · simp only [handleRegisterPlayer, if_pos hv]
      exact hb
    · obtain ⟨room₀, hroom₀⟩ := getOrCreateRoom_find d.gameType rid s
      rw [register_success_state d wsOpen pid rid s hv room₀ hroom₀,
        getOrCreateRoom_players]
      exact BalInv_setPlayer _ hb hr.1 hr.2
  | mark pid rid n =>
    simp only [applyOp]
    cases hp : lookupPlayer s pid with
    | none =>
      simp only [handleMarkNumber, hp]
      exact hb
    | some p =>
      simp only [handleMarkNumber, hp]
      by_cases h : p.roomId ≠ rid
      · rw [if_pos h]
        exact hb
      · rw [if_neg h]
        obtain ⟨hbal, hstk⟩ := hb pid p hp
        exact BalInv_setPlayer s.rooms hb hbal hstk
  | announceWin pid rid pat =>
    simp only [applyOp]
    cases hp : lookupPlayer s pid with
    | none =>
      simp only [handleAnnounceWin, hp]
      exact hb
    | some p =>
      cases hroom : findRoom s rid with
      | none =>
        simp only [handleAnnounceWin, hp, hroom]
        exact hb
      | some room =>
        simp only [handleAnnounceWin, hp, hroom]
        obtain ⟨hbal, hstk⟩ := hb pid p hp
        have hw := calc_nonneg hstk
        have hb₁ : BalInv ⟨s.rooms, setPlayer pid
            { p with won := p.won + calculatePotentialWin p.stake,
                     balance := p.balance + calculatePotentialWin p.stake } s.players⟩ :=
          BalInv_setPlayer s.rooms hb (by simp; omega) hstk
        exact BalInv_setPlayer _ hb₁ (by simp; omega) hstk
  | startCalling rid =>
    simp only [applyOp]
    cases hf : findRoom s rid with
    | none =>
      simp only [handleStartCalling, hf]
      exact hb
    | some room =>
      simp only [handleStartCalling, hf]
      by_cases hc : room.isCalling
      · rw [if_pos hc]
        exact hb
      · rw [if_neg hc]
        exact BalInv_of_players_eq rfl hb
  | stopCalling rid =>
    simp only [applyOp]
    cases hf : findRoom s rid with
    | none =>
      simp only [handleStopCalling, hf]
      exact hb
    | some room =>
      simp only [handleStopCalling, hf]
      by_cases hc : room.isCalling
      · rw [if_pos hc]
        exact BalInv_of_players_eq rfl hb
      · rw [if_neg hc]
        exact hb
  | getGameState pid rid =>
    simp only [applyOp]
    cases hp : lookupPlayer s pid with
    | none =>
      simp only [handleGetGameState, hp]
      exact hb
    | some p =>
      cases hroom : findRoom s rid with
      | none =>
        simp only [handleGetGameState, hp, hroom]
        exact hb
      | some room =>
        simp only [handleGetGameState, hp, hroom]
        exact hb
  | withdraw pid rid acc amt tx =>
    simp only [applyOp]
    cases hp : lookupPlayer s pid with
    | none =>
      simp only [handleWithdraw, hp]
      exact hb
    | some p =>
      simp only [handleWithdraw, hp]
      by_cases h1 : acc = "" ∨ amt < 25
      · rw [if_pos h1]
        exact hb
      · rw [if_neg h1]
        by_cases h2 : p.balance < amt
        · rw [if_pos h2]
          exact hb
        · rw [if_neg h2]
          obtain ⟨hbal, hstk⟩ := hb pid p hp
          exact BalInv_setPlayer s.rooms hb (by simp; omega) hstk
  | draw rid randoms fuel =>
    simp only [applyOp]
    rcases callNextNumber_eq randoms fuel rid s with h | ⟨room, bt, n, hf, hc, hbt, hdl, heq⟩
    · rw [h]
      exact hb
    · rw [heq]
      exact checkForWinners_BalInv rid _ (BalInv_of_players_eq rfl hb)

theorem runOps_BalInv (ops : List Op) : ∀ s : ServerState, BalInv s →
    (∀ op ∈ ops, RegNonneg op) → BalInv (runOps ops s).1 := by
  induction ops with
  | nil => intro s hb _; exact hb
  | cons op rest ih =>
    intro s hb hr
    simp only [runOps]
    exact ih _ (applyOp_BalInv op hb (hr op (List.mem_cons_self op rest)))
      (fun op' h' => hr op' (List.mem_cons_of_mem op h'))

/-- Counterexample to C5 as stated: a registration whose `payment` field is
negative creates a player whose balance is negative from the start — the
code copies `parseInt(payment)` into the balance unchecked. -/
theorem balance_negative_payment :
    (lookupPlayer (runOps [Op.register ⟨"Gil", "0977", 100, 1, "75ball", -10⟩ true "p1" "r1"]
        initialState).1 "p1").map Player.balance = some (-10)
    ∧ (-10 : Int) < 0 := by decide

/-- C5 (amended): for every operation sequence from the empty state in which
each registration carries a nonnegative payment and stake, every player's
balance stays nonnegative; and — unconditionally — a withdrawal either
leaves the balance unchanged or debits exactly `amount` with
`25 ≤ amount ≤ balance`, so no withdrawal ever debits more than the current
balance. -/
theorem balance_nonneg_spec :
    (∀ ops : List Op, (∀ op ∈ ops, RegNonneg op) →
      ∀ pid p, lookupPlayer (runOps ops initialState).1 pid = some p → 0 ≤ p.balance)
    ∧ (∀ (s : ServerState) (pid rid account : String) (amount : Int) (txId : String)
        (p p' : Player), lookupPlayer s pid = some p →
        lookupPlayer (handleWithdraw pid rid account amount txId s).1 pid = some p' →
        p'.balance = p.balance ∨
          (25 ≤ amount ∧ amount ≤ p.balance ∧ p'.balance = p.balance - amount)) := by
  constructor
  · intro ops hr pid p hp
    have hb0 : BalInv initialState := by
      intro pid' q hq
      simp [initialState, lookupKey] at hq
    exact (runOps_BalInv ops initialState hb0 hr pid p hp).1
  · intro s pid rid account amount txId p p' hp hp'
    revert hp'
    simp only [handleWithdraw, hp]
    by_cases h1 : account = "" ∨ amount < 25
    · rw [if_pos h1]
      intro hp'
      rw [hp] at hp'
      exact .inl (congrArg Player.balance (Option.some.inj hp').symm)
    · rw [if_neg h1]
      by_cases h2 : p.balance < amount
      · rw [if_pos h2]
        intro hp'
        rw [hp] at hp'
        exact .inl (congrArg Player.balance (Option.some.inj hp').symm)
      · rw [if_neg h2]
        intro hp'
        unfold lookupPlayer at hp'
        rw [lookupKey_setPlayer_self] at hp'
        refine .inr ⟨by omega, by omega, ?_⟩
        rw [← Option.some.inj hp']

/-- Witness for C5: a registration with payment 40 followed by a withdrawal
of 30, using both conjuncts. -/
theorem balance_nonneg_spec_witness :
    (0 : Int) ≤ (⟨"p1", "Hal", "0988", 10, 1, "90ball", 40, 40, 0, true, "r1", []⟩ : Player).balance
    ∧ ((⟨"p1", "Hal", "0988", 10, 1, "90ball", 40, 15, 0, true, "r1", []⟩ : Player).balance =
        (⟨"p1", "Hal", "0988", 10, 1, "90ball", 40, 40, 0, true, "r1", []⟩ : Player).balance
      ∨ (25 ≤ (25 : Int) ∧ (25 : Int) ≤ 40 ∧
        (⟨"p1", "Hal", "0988", 10, 1, "90ball", 40, 15, 0, true, "r1", []⟩ : Player).balance =
          (⟨"p1", "Hal", "0988", 10, 1, "90ball", 40, 40, 0, true, "r1", []⟩ : Player).balance - 25)) := by
  constructor
  · exact balance_nonneg_spec.1 [Op.register ⟨"Hal", "0988", 10, 1, "90ball", 40⟩ true "p1" "r1"]
      (by intro op h; simp at h; subst h; exact ⟨by norm_num, by norm_num⟩)
      "p1" ⟨"p1", "Hal", "0988", 10, 1, "90ball", 40, 40, 0, true, "r1", []⟩ (by decide)
  · exact balance_nonneg_spec.2
      ⟨[], [("p1", ⟨"p1", "Hal", "0988", 10, 1, "90ball", 40, 40, 0, true, "r1", []⟩)]⟩
      "p1" "r1" "acct" 25 "tx"
      ⟨"p1", "Hal", "0988", 10, 1, "90ball", 40, 40, 0, true, "r1", []⟩
      ⟨"p1", "Hal", "0988", 10, 1, "90ball", 40, 15, 0, true, "r1", []⟩
      (by decide) (by decide)

/-! ## C2: stop_calling halts number calling -/

/-- No `number_called` broadcast for room `rid` occurs among `evts`. -/
def noNumberCalledFor (rid : String) (evts : List Evt) : Prop :=
  ∀ e ∈ evts, ∀ pid n d c, e ≠ Evt.roomSend rid pid (Msg.numberCalled n d c)

/-- Room `rid` is absent or has its calling flag down. -/
def NotCalling (s : ServerState) (rid : String) : Prop :=
  ∀ room, findRoom s rid = some room → room.isCalling = false

theorem noNC_nil (rid : String) : noNumberCalledFor rid [] := by
  intro e he
  simp at he

theorem noNC_append {rid : String} {a b : List Evt} (ha : noNumberCalledFor rid a)
    (hb : noNumberCalledFor rid b) : noNumberCalledFor rid (a ++ b) := by
  intro e he
  rcases List.mem_append.mp he with h | h
  · exact ha e h
  · exact hb e h

theorem noNC_cons {rid : String} {e₀ : Evt} {b : List Evt}
    (h₀ : ∀ pid n d c, e₀ ≠ Evt.roomSend rid pid (Msg.numberCalled n d c))
    (hb : noNumberCalledFor rid b) : noNumberCalledFor rid (e₀ :: b) := by
  intro e he
  rcases List.mem_cons.mp he with h | h
  · subst h
    exact h₀
  · exact hb e h

theorem noNC_broadcast_msg {rid : String} {s : ServerState} {r : String} {msg : Msg}
    {ex : Option String} (hmsg : ∀ n d c, msg ≠ Msg.numberCalled n d c) :
    noNumberCalledFor rid (broadcastToRoom s r msg ex) := by
  intro e he pid n d c hcontra
  obtain ⟨pid', hpe⟩ := mem_broadcastToRoom he
  rw [hpe] at hcontra
  cases hcontra
  exact hmsg n d c rfl

theorem noNC_broadcast_room {rid : String} {s : ServerState} {r : String} {msg : Msg}
    {ex : Option String} (hr : r ≠ rid) :
    noNumberCalledFor rid (broadcastToRoom s r msg ex) := by
  intro e he pid n d c hcontra
  obtain ⟨pid', hpe⟩ := mem_broadcastToRoom he
  rw [hpe] at hcontra
  cases hcontra
  exact hr rfl

theorem noNC_direct {rid : String} {pl : String} {m : Msg} :
    ∀ pid n d c, Evt.direct pl m ≠ Evt.roomSend rid pid (Msg.numberCalled n d c) := by
  intro pid n d c h
  cases h

theorem winnersAux_noNC (rid' : String) (called : List Nat) :
    ∀ (mems : List String) (s : ServerState) (acc : List Evt) (rid : String),
      noNumberCalledFor rid acc →
      noNumberCalledFor rid (winnersAux rid' called mems (s, acc)).2 := by
  intro mems
  induction mems with
  | nil => intro s acc rid hacc; exact hacc
  | cons m rest ih =>
    intro s acc rid hacc
    cases hm : lookupPlayer s m with
    | none =>
      simp only [winnersAux, hm]
      exact ih s acc rid hacc
    | some p =>
      simp only [winnersAux, hm]
      by_cases hwin : called.all (fun n => p.markedNumbers.contains n)
      · rw [if_pos hwin]
        refine ih _ _ rid ?_
        refine noNC_append (noNC_append hacc (noNC_broadcast_msg ?_)) ?_
        · intro n d c h
          cases h
        · exact noNC_cons noNC_direct (noNC_nil rid)
      · rw [if_neg hwin]
        exact ih s acc rid hacc

theorem checkForWinners_noNC (rid' rid : String) (s : ServerState) :
    noNumberCalledFor rid (checkForWinners rid' s).2 := by
  unfold checkForWinners
  cases hr : findRoom s rid' with
  | none => exact noNC_nil rid
  | some room => exact winnersAux_noNC rid' room.calledNumbers room.players s [] rid (noNC_nil rid)

/-- Under `NotCalling s rid`, no operation whatsoever emits a
`number_called` broadcast for room `rid`. -/
theorem applyOp_noNC {s : ServerState} {rid : String} (op : Op) (hnc : NotCalling s rid) :
    noNumberCalledFor rid (applyOp s op).2 := by
  cases op with
  | register d wsOpen pid rid' =>
    simp only [applyOp]
    by_cases hv : d.name = "" ∨ d.phone = "" ∨ d.stake = 0 ∨ d.gameType = ""
    · simp only [handleRegisterPlayer, if_pos hv]
      by_cases hw : wsOpen = true
      · rw [if_pos hw]
        refine noNC_cons ?_ (noNC_nil rid)
        intro pid' n d c h
        cases h
      · rw [if_neg hw]
        exact noNC_nil rid
    · simp only [handleRegisterPlayer, if_neg hv]
      refine noNC_cons noNC_direct (noNC_broadcast_msg ?_)
      intro n d c h
      cases h
  | mark pid rid' n =>
    simp only [applyOp]
    cases hp : lookupPlayer s pid with
    | none =>
      simp only [handleMarkNumber, hp]
      exact noNC_nil rid
    | some p =>
      simp only [handleMarkNumber, hp]
      by_cases h : p.roomId ≠ rid'
      · rw [if_pos h]
        exact noNC_nil rid
      · rw [if_neg h]
        refine noNC_broadcast_msg ?_
        intro n' d c hmsg
        cases hmsg
  | announceWin pid rid' pat =>
    simp only [applyOp]
    cases hp : lookupPlayer s pid with
    | none =>
      simp only [handleAnnounceWin, hp]
      exact noNC_nil rid
    | some p =>
      cases hroom : findRoom s rid' with
      | none =>
        simp only [handleAnnounceWin, hp, hroom]
        exact noNC_nil rid
      | some room =>
        simp only [handleAnnounceWin, hp, hroom]
        refine noNC_append (noNC_broadcast_msg ?_) (noNC_cons noNC_direct (noNC_nil rid))
        intro n d c h
        cases h
  | startCalling rid' =>
    simp only [applyOp]
    cases hf : findRoom s rid' with
    | none =>
      simp only [handleStartCalling, hf]
      exact noNC_nil rid
    | some room =>
      simp only [handleStartCalling, hf]
      by_cases hc : room.isCalling
      · rw [if_pos hc]
        exact noNC_nil rid
      · rw [if_neg hc]
        exact noNC_nil rid
  | stopCalling rid' =>
    simp only [applyOp]
    cases hf : findRoom s rid' with
    | none =>
      simp only [handleStopCalling, hf]
      exact noNC_nil rid
    | some room =>
      simp only [handleStopCalling, hf]
      by_cases hc : room.isCalling
      · rw [if_pos hc]
        exact noNC_nil rid
      · rw [if_neg hc]
        exact noNC_nil rid
  | getGameState pid rid' =>
    simp only [applyOp]
    cases hp : lookupPlayer s pid with
    | none =>
      simp only [handleGetGameState, hp]
      exact noNC_nil rid
    | some p =>
      cases hroom : findRoom s rid' with
      | none =>
        simp only [handleGetGameState, hp, hroom]
        exact noNC_nil rid
      | some room =>
        simp only [handleGetGameState, hp, hroom]
        exact noNC_cons noNC_direct (noNC_nil rid)
  | withdraw pid rid' acc amt tx =>
    simp only [applyOp]
    cases hp : lookupPlayer s pid with
    | none =>
      simp only [handleWithdraw, hp]
      exact noNC_nil rid
    | some p =>
      simp only [handleWithdraw, hp]
      by_cases h1 : acc = "" ∨ amt < 25
      · rw [if_pos h1]
        unfold sendErrorTo
        by_cases hw : p.wsOpen = true
        · rw [if_pos hw]
          exact noNC_cons noNC_direct (noNC_nil rid)
        · rw [if_neg hw]
          exact noNC_nil rid
      · rw [if_neg h1]
        by_cases h2 : p.balance < amt
        · rw [if_pos h2]
          unfold sendErrorTo
          by_cases hw : p.wsOpen = true
          · rw [if_pos hw]
            exact noNC_cons noNC_direct (noNC_nil rid)
          · rw [if_neg hw]
            exact noNC_nil rid
        · rw [if_neg h2]
          exact noNC_cons noNC_direct (noNC_nil rid)
  | draw rid' randoms fuel =>
    simp only [applyOp]
    rcases callNextNumber_eq randoms fuel rid' s with h | ⟨room, bt, n, hf, hc, hbt, hdl, heq⟩
    · rw [h]
      exact noNC_nil rid
    · rw [heq]
      have hne : rid' ≠ rid := by
        intro hr
        subst hr
        rw [hnc room hf] at hc
        cases hc
      exact noNC_append (noNC_broadcast_room hne) (checkForWinners_noNC rid' rid _)

theorem NotCalling_setRoom {s : ServerState} {rid : String} {room' : GameRoom}
    (pl : List (String × Player)) (h : NotCalling s rid)
    (h' : room'.id = rid → room'.isCalling = false) :
    NotCalling ⟨setRoom room' s.rooms, pl⟩ rid := by
  intro r hr
  unfold findRoom at hr
  rw [findRoomIn_setRoom] at hr
  by_cases hid : room'.id = rid
  · rw [if_pos hid] at hr
    cases hr
    exact h' hid
  · rw [if_neg hid] at hr
    exact h r hr

theorem NotCalling_of_rooms_eq {s s' : ServerState} {rid : String} (h : s'.rooms = s.rooms)
    (hnc : NotCalling s rid) : NotCalling s' rid := by
  intro r hr
  unfold findRoom at hr
  rw [h] at hr
  exact hnc r hr

theorem getOrCreateRoom_NotCalling {s : ServerState} {rid : String} (gt fresh : String)
    (h : NotCalling s rid) : NotCalling (getOrCreateRoom gt fresh s).2 rid := by
  cases hf : s.rooms.find? (fun room => room.gameType == gt && decide (room.players.length < 90)) with
  | some r =>
    simp only [getOrCreateRoom, hf]
    exact h
  | none =>
    simp only [getOrCreateRoom, hf]
    exact NotCalling_setRoom _ h (fun _ => rfl)

/-- Every operation other than `start_calling` for room `rid` leaves the
room's calling flag down. -/
theorem applyOp_NotCalling {s : ServerState} {rid : String} (op : Op)
    (hnc : NotCalling s rid) (hop : op ≠ Op.startCalling rid) :
    NotCalling (applyOp s op).1 rid := by
  cases op with
  | register d wsOpen pid rid' =>
    simp only [applyOp]
    by_cases hv : d.name = "" ∨ d.phone = "" ∨ d.stake = 0 ∨ d.gameType = ""
    · simp only [handleRegisterPlayer, if_pos hv]
      exact hnc
    · obtain ⟨room₀, hroom₀⟩ := getOrCreateRoom_find d.gameType rid' s
      rw [register_success_state d wsOpen pid rid' s hv room₀ hroom₀]
      have hnc₁ := getOrCreateRoom_NotCalling d.gameType rid' hnc
      have hid₀ : room₀.id = (getOrCreateRoom d.gameType rid' s).1 := (findRoomIn_mem hroom₀).2
      refine NotCalling_setRoom _ hnc₁ ?_
      intro hid
      have hid' : room₀.id = rid := hid
      have hg : (getOrCreateRoom d.gameType rid' s).1 = rid := hid₀.symm.trans hid'
      have hfind : findRoom (getOrCreateRoom d.gameType rid' s).2 rid = some room₀ := by
        show findRoomIn rid (getOrCreateRoom d.gameType rid' s).2.rooms = some room₀
        rw [← hg]
        exact hroom₀
      exact hnc₁ room₀ hfind
  | mark pid rid' n => exact NotCalling_of_rooms_eq (rooms_handleMarkNumber pid rid' n s) hnc
  | announceWin pid rid' pat =>
    exact NotCalling_of_rooms_eq (rooms_handleAnnounceWin pid rid' pat s) hnc
  | getGameState pid rid' =>
    exact NotCalling_of_rooms_eq (rooms_handleGetGameState pid rid' s) hnc
  | withdraw pid rid' acc amt tx =>
    exact NotCalling_of_rooms_eq (rooms_handleWithdraw pid rid' acc amt tx s) hnc
  | startCalling rid' =>
    have hne : rid' ≠ rid := fun h => hop (by rw [h])
    simp only [applyOp]
    cases hf : findRoom s rid' with
    | none =>
      simp only [handleStartCalling, hf]
      exact hnc
    | some room =>
      simp only [handleStartCalling, hf]
      by_cases hc : room.isCalling
      · rw [if_pos hc]
        exact hnc
      · rw [if_neg hc]
        refine NotCalling_setRoom _ hnc ?_
        intro hid
        exact absurd ((findRoomIn_mem hf).2.symm.trans hid) hne
  | stopCalling rid' =>
    simp only [applyOp]
    cases hf : findRoom s rid' with
    | none =>
      simp only [handleStopCalling, hf]
      exact hnc
    | some room =>
      simp only [handleStopCalling, hf]
      by_cases hc : room.isCalling
      · rw [if_pos hc]
        exact NotCalling_setRoom _ hnc (fun _ => rfl)
      · rw [if_neg hc]
        exact hnc
  | draw rid' randoms fuel =>
    simp only [applyOp]
    rcases callNextNumber_eq randoms fuel rid' s with h | ⟨room, bt, n, hf, hc, hbt, hdl, heq⟩
    · rw [h]
      exact hnc
    · rw [heq]
      have hne : rid' ≠ rid := by
        intro hr
        subst hr
        rw [hnc room hf] at hc
        cases hc
      refine NotCalling_of_rooms_eq (rooms_checkForWinners rid' (drawnState s room n)) ?_
      refine NotCalling_setRoom _ hnc ?_
      intro hid
      exact absurd ((findRoomIn_mem hf).2.symm.trans hid) hne

theorem runOps_noNC {rid : String} : ∀ (ops : List Op) (s : ServerState), NotCalling s rid →
    Op.startCalling rid ∉ ops →
    noNumberCalledFor rid (runOps ops s).2 ∧ NotCalling (runOps ops s).1 rid := by
  intro ops
  induction ops with
  | nil => intro s hnc _; exact ⟨noNC_nil rid, hnc⟩
  | cons op rest ih =>
    intro s hnc hops
    have hop : op ≠ Op.startCalling rid := fun h => hops (h ▸ List.mem_cons_self op rest)
    have hrest : Op.startCalling rid ∉ rest := fun h => hops (List.mem_cons_of_mem op h)
    have hnc' := applyOp_NotCalling op hnc hop
    obtain ⟨h1, h2⟩ := ih _ hnc' hrest
    simp only [runOps]
    exact ⟨noNC_append (applyOp_noNC op hnc) h1, h2⟩

/-- After `stop_calling`, the room's flag is down. -/
theorem handleStopCalling_NotCalling (rid : String) (s : ServerState) :
    NotCalling (handleStopCalling rid s).1 rid := by
  cases hf : findRoom s rid with
  | none =>
    simp only [handleStopCalling, hf]
    intro room hr
    rw [hf] at hr
    cases hr
  | some room =>
    simp only [handleStopCalling, hf]
    by_cases hc : room.isCalling
    · rw [if_pos hc]
      intro r hr
      unfold findRoom at hr
      rw [findRoomIn_setRoom] at hr
      have hid : ({ room with isCalling := false, callInterval := false } : GameRoom).id = rid :=
        (findRoomIn_mem hf).2
      rw [if_pos hid] at hr
      cases hr
      rfl
    · rw [if_neg hc]
      intro r hr
      rw [hf] at hr
      cases hr
      cases hb : room.isCalling
      · rfl
      · exact absurd hb hc

/-- C2: once `stop_calling` for a room is processed, no `number_called`
event is emitted for that room by any subsequent operation sequence that
contains no `start_calling` for it — in particular a draw that was already
queued at stop time fires against the cleared flag and performs no state
mutation and no broadcast at all. -/
theorem stop_calling_halts_draws :
    ∀ (s : ServerState) (rid : String) (ops : List Op), Op.startCalling rid ∉ ops →
      noNumberCalledFor rid (runOps ops (handleStopCalling rid s).1).2
      ∧ ∀ randoms fuel, callNextNumber randoms fuel rid (handleStopCalling rid s).1 =
          ((handleStopCalling rid s).1, []) := by
  intro s rid ops hops
  have hnc := handleStopCalling_NotCalling rid s
  refine ⟨(runOps_noNC ops _ hnc hops).1, ?_⟩
  intro randoms fuel
  cases hf : findRoom (handleStopCalling rid s).1 rid with
  | none => simp only [callNextNumber, hf]
  | some room =>
    have hoff := hnc room hf
    simp only [callNextNumber, hf, hoff]
    rfl

/-- Witness for C2: a room that is actively calling is stopped, then a
queued draw fires and does nothing. -/
def c2State : ServerState :=
  ⟨[⟨"r1", "75ball", ["p1"], [3], some 3, true, true, true⟩],
   [("p1", ⟨"p1", "Ida", "0999", 10, 1, "75ball", 0, 0, 0, true, "r1", []⟩)]⟩

theorem stop_calling_halts_draws_witness :
    noNumberCalledFor "r1"
      (runOps [Op.draw "r1" (fun j => j) 5] (handleStopCalling "r1" c2State).1).2
    ∧ callNextNumber (fun j => j) 5 "r1" (handleStopCalling "r1" c2State).1 =
        ((handleStopCalling "r1" c2State).1, []) := by
  have h := stop_calling_halts_draws c2State "r1" [Op.draw "r1" (fun j => j) 5] (by simp)
  exact ⟨h.1, h.2 (fun j => j) 5⟩

end Bingo
